import Mathlib

/-!
# Verification of the mem-db in-memory table store

Shallow embedding of the Go sources of `liubaotong/mem-db`: the `db`
package (Database, Table, Column, value validation, disk snapshot) and
the `protocol`/`main` server layer (Command decoding and dispatch).

Modelling conventions:
* Go `map[string]V` is modelled by the association list `SMap V`,
  kept duplicate-free by construction (`SMap.set` replaces in place,
  appends fresh keys at the end).  Go map iteration order is
  unspecified; the model iterates in list order, which is observably
  equivalent for the operations modelled here.
* Go `interface{}` values held in rows, `values` and `conditions` maps
  are JSON scalars in every behaviour the claims touch; they are
  modelled by the closed `Value` type.  `Value.int` is a Go `int`
  (acceptable to `validateValueType` but never produced by JSON
  decoding); `Value.num` is a Go `float64`, modelled as an exact
  rational (every JSON number decodes to `float64`).  Go interface
  equality (`row[k] != v`) is constructor-wise equality, so
  `int 1 ≠ num 1`, exactly as in Go.
* JSON documents (snapshot file contents, command payloads) are the
  `Json` type; `encoding/json` encode/decode is modelled structurally:
  a decoded number is always `Value.num` (Go gives `float64`), absent
  object fields decode to Go zero values, later duplicate object keys
  win, and a shape mismatch is a decode error.
* Errors are the `DBError` tags of the `fmt.Errorf` messages in the
  source; `DBError.message` reproduces the message prefixes.
* File-system effects are reduced to the file contents read by
  `LoadFromDisk` (an optional `Json`, `none` = unreadable/missing) and
  produced by `SaveToDisk`; locks are dropped (each operation is
  modelled as the atomic state transformer the lock makes it).
-/

namespace MemDb

/-- Go scalar values as stored in rows and condition/values maps:
`null`/`bool` from JSON literals, `num` a `float64` (every JSON number),
`int` a Go `int` (only via direct library calls), `str` a string. -/
inductive Value where
  | null
  | bool (b : Bool)
  | num (q : ℚ)
  | int (n : Int)
  | str (s : String)
deriving DecidableEq, Repr

/-- A Go `map[string]α`, as an association list without duplicate keys. -/
abbrev SMap (α : Type) := List (String × α)

/-- Go map lookup `m[k]` returning presence. -/
def SMap.get {α : Type} (m : SMap α) (k : String) : Option α :=
  match m with
  | [] => none
  | (k', v) :: rest => if k' = k then some v else SMap.get rest k

/-- Go map assignment `m[k] = v`: replace in place, append fresh keys. -/
def SMap.set {α : Type} (m : SMap α) (k : String) (v : α) : SMap α :=
  match m with
  | [] => [(k, v)]
  | (k', v') :: rest =>
      if k' = k then (k, v) :: rest else (k', v') :: SMap.set rest k v

/-- The key list of a map. -/
def SMap.keys {α : Type} (m : SMap α) : List String := m.map (fun p => p.1)

/-- Key-distinctness, the invariant of every real Go map. -/
abbrev SMap.nodupKeys {α : Type} (m : SMap α) : Prop := m.keys.Nodup

/-- `type ColumnType int` with `TypeInt ColumnType = iota`. -/
def TypeInt : Int := 0

/-- `TypeString` is the second `iota` value. -/
def TypeString : Int := 1

/-- `Column` of the `db` package (`ty` is the Go field `Type`). -/
structure Column where
  name : String
  ty : Int
deriving DecidableEq, Repr

/-- A row, `map[string]interface{}`. -/
abbrev Row := SMap Value

/-- `Table` of the `db` package (the mutex is dropped). -/
structure Table where
  name : String
  columns : List Column
  rows : List Row
deriving DecidableEq, Repr

/-- `Database`: the catalog `tables map[string]*Table`. -/
structure Database where
  tables : SMap Table
deriving DecidableEq, Repr

/-- `NewDatabase()`. -/
def NewDatabase : Database := ⟨[]⟩

/-- Error tags for the `fmt.Errorf` messages of the `db` package. -/
inductive DBError where
  | missingColumn (col : String)
  | typeMismatch (col : String)
  | notFound
  | tableExists (name : String)
  | tableNotFound (name : String)
deriving DecidableEq, Repr

/-- The Go error strings (the `%v` detail of type mismatches elided). -/
def DBError.message : DBError → String
  | .missingColumn c => "missing value for column " ++ c
  | .typeMismatch c => "column " ++ c ++ ": type mismatch"
  | .notFound => "no matching records found"
  | .tableExists n => "table " ++ n ++ " already exists"
  | .tableNotFound n => "table " ++ n ++ " does not exist"

/-- `validateValueType(col, val)`: `TypeInt` accepts a Go `int` or an
integral `float64` (`v == float64(int(v))`); `TypeString` accepts a
string; any other declared type is rejected (`default` branch). -/
def validateValueType (col : Column) (val : Value) : Bool :=
  if col.ty = TypeInt then
    match val with
    | .int _ => true
    | .num q => q.den == 1
    | _ => false
  else if col.ty = TypeString then
    match val with
    | .str _ => true
    | _ => false
  else false

/-- A `condition func(map[string]interface{}) bool`, possibly `nil`. -/
abbrev Cond := Option (Row → Bool)

/-- `condition == nil || condition(row)` as used by Select and Update. -/
def matchesCond (c : Cond) (r : Row) : Bool :=
  match c with
  | none => true
  | some f => f r

/-- The Insert loop over `t.Columns`: look the column up in `values`
(`MissingColumn` if absent), validate it (`TypeMismatch` on failure),
and write it into the row being built. -/
def insertRowLoop (cols : List Column) (values : Row) (acc : Row) :
    Except DBError Row :=
  match cols with
  | [] => .ok acc
  | c :: rest =>
      match SMap.get values c.name with
      | none => .error (.missingColumn c.name)
      | some v =>
          if validateValueType c v then
            insertRowLoop rest values (SMap.set acc c.name v)
          else .error (.typeMismatch c.name)

/-- `Table.Insert`: build the row from the declared columns only, then
append it; on error the table is untouched. -/
def Table.insert (t : Table) (values : Row) : Table × Option DBError :=
  match insertRowLoop t.columns values [] with
  | .error e => (t, some e)
  | .ok row => ({ t with rows := t.rows ++ [row] }, none)

/-- The per-row copy made by Select (`for k, v := range row` into a
fresh map). -/
def copyRow (r : Row) : Row :=
  r.foldl (fun acc p => SMap.set acc p.1 p.2) []

/-- `Table.Select`: copies of the rows satisfying the condition, in
stored order; total, never an error. -/
def Table.select (t : Table) (cond : Cond) : List Row :=
  (t.rows.filter (fun r => matchesCond cond r)).map copyRow

/-- The Update validation loop over `t.Columns`: a value provided for a
declared column must validate; keys of `values` that name no declared
column are not examined at all. -/
def validateUpdateValues (cols : List Column) (values : Row) :
    Option DBError :=
  match cols with
  | [] => none
  | c :: rest =>
      match SMap.get values c.name with
      | some v =>
          if validateValueType c v then validateUpdateValues rest values
          else some (.typeMismatch c.name)
      | none => validateUpdateValues rest values

/-- `for colName, val := range values { row[colName] = val }`. -/
def applyValues (r : Row) (values : Row) : Row :=
  values.foldl (fun acc p => SMap.set acc p.1 p.2) r

/-- `Table.Update`: validate first (no row touched on failure), then
overwrite the provided keys on every matching row; `NotFound` when no
row matched.  The Go method returns only `error` — no count. -/
def Table.update (t : Table) (cond : Cond) (values : Row) :
    Table × Option DBError :=
  match validateUpdateValues t.columns values with
  | some e => (t, some e)
  | none =>
      if t.rows.any (fun r => matchesCond cond r) then
        ({ t with rows := t.rows.map (fun r =>
            if matchesCond cond r then applyValues r values else r) },
         none)
      else (t, some .notFound)

/-- `Table.Delete`: keep the rows for which
`condition == nil || !condition(row)`; if the count dropped by zero,
fail with `NotFound` leaving the rows untouched, else install the
survivors and return the removed count. -/
def Table.delete (t : Table) (cond : Cond) :
    Table × Nat × Option DBError :=
  let newRows := t.rows.filter (fun r =>
    match cond with
    | none => true
    | some f => !(f r))
  let deletedCount := t.rows.length - newRows.length
  if deletedCount = 0 then (t, 0, some .notFound)
  else ({ t with rows := newRows }, deletedCount, none)

/-- `Table.GetColumns` (returns a copy; copying is identity here). -/
def Table.getColumns (t : Table) : List Column := t.columns

/-- `Table.RowCount`. -/
def Table.rowCount (t : Table) : Nat := t.rows.length

/-- `Database.CreateTable`: fails if the name exists, else installs an
empty table under the name. -/
def Database.createTable (db : Database) (name : String)
    (columns : List Column) : Database × Option DBError :=
  match SMap.get db.tables name with
  | some _ => (db, some (.tableExists name))
  | none =>
      (⟨SMap.set db.tables name ⟨name, columns, []⟩⟩, none)

/-- `Database.GetTable` (the `TableNotFound` error is raised at call
sites from `none`). -/
def Database.getTable (db : Database) (name : String) : Option Table :=
  SMap.get db.tables name

/-- Writing a mutated table back: models mutation through the `*Table`
pointer stored in the catalog map. -/
def Database.setTable (db : Database) (name : String) (t : Table) :
    Database :=
  ⟨SMap.set db.tables name t⟩

/-- `TableInfo`: table name and columns with rendered type names. -/
structure TableInfo where
  name : String
  columns : List (String × String)
deriving DecidableEq, Repr

/-- `Database.GetTableInfo`: the type name defaults to `"string"` and
is `"int"` exactly for `TypeInt`. -/
def Database.getTableInfo (db : Database) (name : String) :
    Option TableInfo :=
  match SMap.get db.tables name with
  | none => none
  | some t =>
      some ⟨t.name, t.columns.map (fun c =>
        (c.name, if c.ty = TypeInt then "int" else "string"))⟩

/-! ## JSON documents and the snapshot codec -/

/-- A JSON document, as handled by `encoding/json`. -/
inductive Json where
  | null
  | bool (b : Bool)
  | num (q : ℚ)
  | str (s : String)
  | arr (elems : List Json)
  | obj (fields : List (String × Json))

/-- Normalize the raw field list of a JSON object the way Go decodes
it: later duplicate keys overwrite earlier ones. -/
def jNorm (fields : List (String × Json)) : SMap Json :=
  fields.foldl (fun acc p => SMap.set acc p.1 p.2) []

/-- Marshalling a stored Go value: a Go `int` is written as the same
JSON number a `float64` would be. -/
def encodeValue : Value → Json
  | .null => .null
  | .bool b => .bool b
  | .num q => .num q
  | .int n => .num (n : ℚ)
  | .str s => .str s

/-- Unmarshalling a JSON value into `interface{}`: every number becomes
a `float64`.  Composite values (arrays/objects) are outside the scalar
domain modelled by `Value`. -/
def jsonToValue : Json → Option Value
  | .null => some .null
  | .bool b => some (.bool b)
  | .num q => some (.num q)
  | .str s => some (.str s)
  | .arr _ => none
  | .obj _ => none

/-- Decode a field into a Go `string`: an absent field or JSON `null`
leaves the zero value `""`; a non-string is a decode error. -/
def decodeStringField : Option Json → Option String
  | none => some ""
  | some .null => some ""
  | some (.str s) => some s
  | some _ => none

/-- Decode a field into a Go `int`-typed value: absent/`null` leaves
`0`; a non-integral number or other shape is a decode error. -/
def decodeIntField : Option Json → Option Int
  | none => some (0 : Int)
  | some .null => some (0 : Int)
  | some (.num q) => if q.den = 1 then some q.num else none
  | some _ => none

/-- Marshalling one row (`map[string]interface{}`). -/
def encodeRow (r : Row) : Json :=
  .obj (r.map (fun p => (p.1, encodeValue p.2)))

/-- Decode the (normalized) field list of a row object value by value. -/
def decodeRowFields : List (String × Json) → Option Row
  | [] => some []
  | (k, j) :: rest =>
      match jsonToValue j, decodeRowFields rest with
      | some v, some r => some ((k, v) :: r)
      | _, _ => none

/-- Unmarshalling one row: `null` leaves a nil map; an object decodes
field-wise (later duplicate keys win). -/
def decodeRow : Json → Option Row
  | .null => some []
  | .obj fields => decodeRowFields (jNorm fields)
  | _ => none

/-- Marshalling a `Column` (the `ColumnType` is a JSON number). -/
def encodeColumn (c : Column) : Json :=
  .obj [("name", .str c.name), ("type", .num (c.ty : ℚ))]

/-- Unmarshalling a `Column`: `null` leaves the zero value; absent
fields leave zero fields; other shapes are decode errors. -/
def decodeColumn : Json → Option Column
  | .null => some ⟨"", 0⟩
  | .obj fields =>
      match decodeStringField (SMap.get (jNorm fields) "name"),
            decodeIntField (SMap.get (jNorm fields) "type") with
      | some n, some t => some ⟨n, t⟩
      | _, _ => none
  | _ => none

/-- `TableData`, the serialization struct of the `db` package. -/
structure TableData where
  name : String
  columns : List Column
  rows : List Row
deriving DecidableEq, Repr

/-- Marshalling a `TableData`. -/
def encodeTableData (td : TableData) : Json :=
  .obj [("name", .str td.name),
        ("columns", .arr (td.columns.map encodeColumn)),
        ("rows", .arr (td.rows.map encodeRow))]

/-- Decode the elements of the `columns` array one by one. -/
def decodeColumnList : List Json → Option (List Column)
  | [] => some []
  | j :: rest =>
      match decodeColumn j, decodeColumnList rest with
      | some c, some cs => some (c :: cs)
      | _, _ => none

/-- Decode the `columns` field (`null`/absent leaves a nil slice). -/
def decodeColumnsField : Option Json → Option (List Column)
  | none => some []
  | some .null => some []
  | some (.arr xs) => decodeColumnList xs
  | some _ => none

/-- Decode the elements of the `rows` array one by one. -/
def decodeRowList : List Json → Option (List Row)
  | [] => some []
  | j :: rest =>
      match decodeRow j, decodeRowList rest with
      | some r, some rs => some (r :: rs)
      | _, _ => none

/-- Decode the `rows` field (`null`/absent leaves a nil slice). -/
def decodeRowsField : Option Json → Option (List Row)
  | none => some []
  | some .null => some []
  | some (.arr xs) => decodeRowList xs
  | some _ => none

/-- Unmarshalling a `TableData`. -/
def decodeTableData : Json → Option TableData
  | .null => some ⟨"", [], []⟩
  | .obj fields =>
      match decodeStringField (SMap.get (jNorm fields) "name"),
            decodeColumnsField (SMap.get (jNorm fields) "columns"),
            decodeRowsField (SMap.get (jNorm fields) "rows") with
      | some n, some cs, some rs => some ⟨n, cs, rs⟩
      | _, _, _ => none
  | _ => none

/-- `Database.SaveToDisk` writes `map[string]TableData` built from the
catalog; this is the JSON content of the written file. -/
def Database.saveToDisk (db : Database) : Json :=
  .obj (db.tables.map (fun p =>
    (p.1, encodeTableData ⟨p.2.name, p.2.columns, p.2.rows⟩)))

/-- Decode the (normalized) entries of the snapshot object. -/
def decodeSnapshotEntries : List (String × Json) → Option (SMap TableData)
  | [] => some []
  | (k, j) :: rest =>
      match decodeTableData j, decodeSnapshotEntries rest with
      | some td, some tds => some ((k, td) :: tds)
      | _, _ => none

/-- Unmarshalling the snapshot file into `map[string]TableData`. -/
def decodeSnapshot : Json → Option (SMap TableData)
  | .null => some []
  | .obj fields => decodeSnapshotEntries (jNorm fields)
  | _ => none

/-- Failures of `Database.LoadFromDisk`: `os.Open` errors and
`json.Decoder.Decode` errors. -/
inductive LoadError where
  | ioError
  | decodeError
deriving DecidableEq, Repr

/-- The catalog rebuilt by `LoadFromDisk` from decoded data: a fresh
map keyed by each `TableData.Name` — independent of any prior state. -/
def rebuildTables (data : SMap TableData) : Database :=
  ⟨data.foldl (fun acc p =>
      SMap.set acc p.2.name ⟨p.2.name, p.2.columns, p.2.rows⟩) []⟩

/-- `Database.LoadFromDisk`: `file` is the content of the named file
(`none` = missing/unreadable).  The catalog is reassigned only after
open and decode both succeeded. -/
def Database.loadFromDisk (db : Database) (file : Option Json) :
    Database × Option LoadError :=
  match file with
  | none => (db, some .ioError)
  | some j =>
      match decodeSnapshot j with
      | none => (db, some .decodeError)
      | some data => (rebuildTables data, none)

/-! ## Command protocol and server dispatch -/

/-- The decoded payload structs of the `protocol` package, plus `str`
for a bare string payload (the shape `handleLoadFromDisk` asserts; no
branch of `Command.UnmarshalJSON` ever produces it). -/
inductive CmdPayload where
  | createTable (tableName : String) (columns : List (String × String))
  | insert (tableName : String) (values : Row)
  | select (tableName : String) (conditions : Row)
  | update (tableName : String) (values : Row) (conditions : Row)
  | delete (tableName : String) (conditions : Row)
  | getTableInfo (tableName : String)
  | str (s : String)
deriving DecidableEq, Repr

/-- A decoded `protocol.Command`: the integer type tag and the payload
interface (`none` is the nil interface). -/
structure Command where
  ctype : Int
  payload : Option CmdPayload
deriving DecidableEq, Repr

/-- The wire form handed to `Command.UnmarshalJSON`: the decoded type
tag and the raw payload bytes (`none` when the field is absent). -/
structure RawCommand where
  rtype : Int
  rpayload : Option Json

/-- Decode a `map[string]interface{}`-typed payload field
(`values`/`conditions`): absent or `null` leaves a nil map. -/
def decodeValuesField : Option Json → Option Row
  | none => some []
  | some j => decodeRow j

/-- Decode one element of the `columns` payload slice
(`{name, type string}`). -/
def decodePayloadColumn : Json → Option (String × String)
  | .null => some ("", "")
  | .obj fields =>
      match decodeStringField (SMap.get (jNorm fields) "name"),
            decodeStringField (SMap.get (jNorm fields) "type") with
      | some n, some t => some (n, t)
      | _, _ => none
  | _ => none

/-- Decode the `columns` payload field. -/
def decodePayloadColumns : Option Json → Option (List (String × String))
  | none => some []
  | some .null => some []
  | some (.arr xs) => xs.mapM decodePayloadColumn
  | some _ => none

/-- `json.Unmarshal` into `CreateTablePayload`; a missing raw payload
is an unmarshal error. -/
def decodeCreateTablePayload : Option Json → Option CmdPayload
  | none => none
  | some .null => some (.createTable "" [])
  | some (.obj fields) =>
      match decodeStringField (SMap.get (jNorm fields) "table_name"),
            decodePayloadColumns (SMap.get (jNorm fields) "columns") with
      | some n, some cs => some (.createTable n cs)
      | _, _ => none
  | some _ => none

/-- `json.Unmarshal` into `InsertPayload`. -/
def decodeInsertPayload : Option Json → Option CmdPayload
  | none => none
  | some .null => some (.insert "" [])
  | some (.obj fields) =>
      match decodeStringField (SMap.get (jNorm fields) "table_name"),
            decodeValuesField (SMap.get (jNorm fields) "values") with
      | some n, some vs => some (.insert n vs)
      | _, _ => none
  | some _ => none

/-- `json.Unmarshal` into `SelectPayload`. -/
def decodeSelectPayload : Option Json → Option CmdPayload
  | none => none
  | some .null => some (.select "" [])
  | some (.obj fields) =>
      match decodeStringField (SMap.get (jNorm fields) "table_name"),
            decodeValuesField (SMap.get (jNorm fields) "conditions") with
      | some n, some cs => some (.select n cs)
      | _, _ => none
  | some _ => none

/-- `json.Unmarshal` into `UpdatePayload`. -/
def decodeUpdatePayload : Option Json → Option CmdPayload
  | none => none
  | some .null => some (.update "" [] [])
  | some (.obj fields) =>
      match decodeStringField (SMap.get (jNorm fields) "table_name"),
            decodeValuesField (SMap.get (jNorm fields) "values"),
            decodeValuesField (SMap.get (jNorm fields) "conditions") with
      | some n, some vs, some cs => some (.update n vs cs)
      | _, _, _ => none
  | some _ => none

/-- `json.Unmarshal` into `DeletePayload`. -/
def decodeDeletePayload : Option Json → Option CmdPayload
  | none => none
  | some .null => some (.delete "" [])
  | some (.obj fields) =>
      match decodeStringField (SMap.get (jNorm fields) "table_name"),
            decodeValuesField (SMap.get (jNorm fields) "conditions") with
      | some n, some cs => some (.delete n cs)
      | _, _ => none
  | some _ => none

/-- `json.Unmarshal` into `GetTableInfoPayload`. -/
def decodeGetTableInfoPayload : Option Json → Option CmdPayload
  | none => none
  | some .null => some (.getTableInfo "")
  | some (.obj fields) =>
      match decodeStringField (SMap.get (jNorm fields) "table_name") with
      | some n => some (.getTableInfo n)
      | none => none
  | some _ => none

/-- `Command.UnmarshalJSON`: the switch decodes a payload for the six
listed tags only.  `SaveToDisk` (5), `LoadFromDisk` (6) and every
unknown tag fall through the switch, leaving `Payload` nil. -/
def Command.unmarshal (raw : RawCommand) : Except String Command :=
  if raw.rtype = 0 then
    match decodeCreateTablePayload raw.rpayload with
    | none => .error "invalid create table payload"
    | some p => .ok ⟨raw.rtype, some p⟩
  else if raw.rtype = 1 then
    match decodeInsertPayload raw.rpayload with
    | none => .error "invalid insert payload"
    | some p => .ok ⟨raw.rtype, some p⟩
  else if raw.rtype = 2 then
    match decodeSelectPayload raw.rpayload with
    | none => .error "invalid select payload"
    | some p => .ok ⟨raw.rtype, some p⟩
  else if raw.rtype = 3 then
    match decodeUpdatePayload raw.rpayload with
    | none => .error "invalid update payload"
    | some p => .ok ⟨raw.rtype, some p⟩
  else if raw.rtype = 4 then
    match decodeDeletePayload raw.rpayload with
    | none => .error "invalid delete payload"
    | some p => .ok ⟨raw.rtype, some p⟩
  else if raw.rtype = 7 then
    match decodeGetTableInfoPayload raw.rpayload with
    | none => .error "invalid get table info payload"
    | some p => .ok ⟨raw.rtype, some p⟩
  else .ok ⟨raw.rtype, none⟩

/-- Result data carried in a `protocol.Response` by the handlers. -/
inductive RespData where
  | rows (rs : List Row)
  | info (i : TableInfo)
  | msg (s : String)
deriving DecidableEq, Repr

/-- `protocol.Response` (`error` is `""` when omitted). -/
structure Response where
  success : Bool
  data : Option RespData
  error : String
deriving DecidableEq, Repr

/-- The default snapshot path of the server. -/
def DEFAULT_DB_FILE : String := "database.json"

/-- The readable file system: content of each path, if readable. -/
abbrev FS := String → Option Json

/-- `row[k]` inside a handler condition closure: a missing key yields
the nil interface, which compares equal to a decoded JSON null. -/
def goGet (r : Row) (k : String) : Value :=
  (SMap.get r k).getD .null

/-- The condition closure the handlers build from a `conditions` map:
every listed key must compare equal on the row. -/
def condFromList (conds : Row) : Row → Bool :=
  fun row => conds.all (fun p => goGet row p.1 == p.2)

/-- `handleCreateTable`'s column-type mapping loop: `"int"` and
`"string"` translate, anything else aborts the request. -/
def colsFromPayload : List (String × String) → Except String (List Column)
  | [] => .ok []
  | (n, ty) :: rest =>
      if ty = "int" then
        (colsFromPayload rest).map (fun cs => ⟨n, TypeInt⟩ :: cs)
      else if ty = "string" then
        (colsFromPayload rest).map (fun cs => ⟨n, TypeString⟩ :: cs)
      else .error ("invalid column type: " ++ ty)

/-- `handleCreateTable`.  (The `autoSave` call touches only the disk,
not the catalog, and is outside the modelled state.) -/
def handleCreateTable (payload : Option CmdPayload) (db : Database) :
    Database × Response :=
  match payload with
  | some (.createTable n pcols) =>
      match colsFromPayload pcols with
      | .error msg => (db, ⟨false, none, msg⟩)
      | .ok cols =>
          match db.createTable n cols with
          | (db', none) => (db', ⟨true, none, ""⟩)
          | (db', some e) => (db', ⟨false, none, e.message⟩)
  | _ => (db, ⟨false, none, "invalid payload"⟩)

/-- `handleInsert`. -/
def handleInsert (payload : Option CmdPayload) (db : Database) :
    Database × Response :=
  match payload with
  | some (.insert n vals) =>
      match db.getTable n with
      | none => (db, ⟨false, none, (DBError.tableNotFound n).message⟩)
      | some t =>
          match t.insert vals with
          | (_, some e) => (db, ⟨false, none, e.message⟩)
          | (t', none) => (db.setTable n t', ⟨true, none, ""⟩)
  | _ => (db, ⟨false, none, "invalid payload"⟩)

/-- `handleSelect`. -/
def handleSelect (payload : Option CmdPayload) (db : Database) :
    Database × Response :=
  match payload with
  | some (.select n conds) =>
      match db.getTable n with
      | none => (db, ⟨false, none, (DBError.tableNotFound n).message⟩)
      | some t =>
          (db, ⟨true, some (.rows (t.select (some (condFromList conds)))), ""⟩)
  | _ => (db, ⟨false, none, "invalid payload"⟩)

/-- `handleUpdate`: a successful update responds with bare success, no
data and in particular no mutated-row count. -/
def handleUpdate (payload : Option CmdPayload) (db : Database) :
    Database × Response :=
  match payload with
  | some (.update n vals conds) =>
      match db.getTable n with
      | none => (db, ⟨false, none, (DBError.tableNotFound n).message⟩)
      | some t =>
          match t.update (some (condFromList conds)) vals with
          | (_, some e) => (db, ⟨false, none, e.message⟩)
          | (t', none) => (db.setTable n t', ⟨true, none, ""⟩)
  | _ => (db, ⟨false, none, "invalid payload"⟩)

/-- `handleDelete`: a successful delete reports the removed count in
the data string. -/
def handleDelete (payload : Option CmdPayload) (db : Database) :
    Database × Response :=
  match payload with
  | some (.delete n conds) =>
      match db.getTable n with
      | none => (db, ⟨false, none, (DBError.tableNotFound n).message⟩)
      | some t =>
          match t.delete (some (condFromList conds)) with
          | (_, _, some e) => (db, ⟨false, none, e.message⟩)
          | (t', count, none) =>
              (db.setTable n t',
               ⟨true, some (.msg ("Deleted " ++ toString count ++ " records")), ""⟩)
  | _ => (db, ⟨false, none, "invalid payload"⟩)

/-- `handleSaveToDisk`: the backup/rename/write sequence touches only
the disk; the catalog is read, never changed. -/
def handleSaveToDisk (db : Database) : Database × Response :=
  (db, ⟨true, none, ""⟩)

/-- `handleLoadFromDisk`: a nil payload targets `DEFAULT_DB_FILE`, a
string payload names the file, anything else is rejected. -/
def handleLoadFromDisk (payload : Option CmdPayload) (db : Database)
    (fs : FS) : Database × Response :=
  match payload with
  | none =>
      match db.loadFromDisk (fs DEFAULT_DB_FILE) with
      | (db', none) => (db', ⟨true, none, ""⟩)
      | (db', some _) => (db', ⟨false, none, "failed to load database"⟩)
  | some (.str s) =>
      match db.loadFromDisk (fs s) with
      | (db', none) => (db', ⟨true, none, ""⟩)
      | (db', some _) => (db', ⟨false, none, "failed to load database"⟩)
  | some _ => (db, ⟨false, none, "invalid filename"⟩)

/-- `handleGetTableInfo`. -/
def handleGetTableInfo (payload : Option CmdPayload) (db : Database) :
    Database × Response :=
  match payload with
  | some (.getTableInfo n) =>
      match db.getTableInfo n with
      | none => (db, ⟨false, none, (DBError.tableNotFound n).message⟩)
      | some i => (db, ⟨true, some (.info i), ""⟩)
  | _ => (db, ⟨false, none, "invalid payload"⟩)

/-- `handleCommand`: dispatch on the type tag; every tag other than the
eight defined constants answers `"unknown command"` and touches
nothing. -/
def handleCommand (cmd : Command) (db : Database) (fs : FS) :
    Database × Response :=
  if cmd.ctype = 0 then handleCreateTable cmd.payload db
  else if cmd.ctype = 1 then handleInsert cmd.payload db
  else if cmd.ctype = 2 then handleSelect cmd.payload db
  else if cmd.ctype = 3 then handleUpdate cmd.payload db
  else if cmd.ctype = 4 then handleDelete cmd.payload db
  else if cmd.ctype = 5 then handleSaveToDisk db
  else if cmd.ctype = 6 then handleLoadFromDisk cmd.payload db fs
  else if cmd.ctype = 7 then handleGetTableInfo cmd.payload db
  else (db, ⟨false, none, "unknown command"⟩)

/-! ## Schema-conformance predicates and reachable states -/

/-- Is this value a Go `int` (the one kind `encoding/json` cannot
reproduce: it comes back as a `float64`)? -/
def Value.isGoInt : Value → Bool
  | .int _ => true
  | _ => false

/-- The net effect of marshal-then-unmarshal on one stored value. -/
def valueRT : Value → Value
  | .int n => .num (n : ℚ)
  | v => v

/-- The net effect of marshal-then-unmarshal on one row. -/
def rowRT (r : Row) : Row := r.map (fun p => (p.1, valueRT p.2))

/-- Does the database hold any Go-`int` value (only possible through
direct library calls; wire-ingested values are never `int`)? -/
def dbIntFreeB (db : Database) : Bool :=
  db.tables.all (fun p =>
    p.2.rows.all (fun r => r.all (fun q => !q.2.isGoInt)))

/-- Row conformance as the code maintains it: every declared column is
present in the row with a value accepted by `validateValueType`.  (The
row may carry extra keys beyond the declared columns.) -/
def rowConformsB (cols : List Column) (r : Row) : Bool :=
  cols.all (fun c =>
    match SMap.get r c.name with
    | some v => validateValueType c v
    | none => false)

/-- Every row of the table conforms to its columns. -/
def tableConformsB (t : Table) : Bool :=
  t.rows.all (fun r => rowConformsB t.columns r)

/-- Every table of the catalog conforms. -/
def dbConformsB (db : Database) : Bool :=
  db.tables.all (fun p => tableConformsB p.2)

/-- The spec's literal Row invariant: the key set equals exactly the
column name set (and values are typed). -/
def rowExactB (cols : List Column) (r : Row) : Bool :=
  rowConformsB cols r && r.all (fun p => cols.any (fun c => c.name == p.1))

/-- The literal invariant over a table. -/
def tableExactB (t : Table) : Bool :=
  t.rows.all (fun r => rowExactB t.columns r)

/-- The literal invariant over the catalog. -/
def dbExactB (db : Database) : Bool :=
  db.tables.all (fun p => tableExactB p.2)

/-- Catalog states built by the engine's operations: a fresh database,
successful CreateTable/Insert/Update/Delete steps (a failed operation
leaves the state unchanged), and a successful LoadFromDisk of a file
that `SaveToDisk` wrote for some reachable catalog.  `values` maps come
from Go maps, hence carry no duplicate keys. -/
inductive Reachable : Database → Prop where
  | init : Reachable NewDatabase
  | create (db : Database) (n : String) (cols : List Column)
      (db' : Database) :
      Reachable db → db.createTable n cols = (db', none) → Reachable db'
  | insert (db : Database) (n : String) (t : Table) (values : Row)
      (t' : Table) :
      Reachable db → db.getTable n = some t →
      t.insert values = (t', none) → Reachable (db.setTable n t')
  | update (db : Database) (n : String) (t : Table) (cond : Cond)
      (values : Row) (t' : Table) :
      Reachable db → db.getTable n = some t → values.nodupKeys →
      t.update cond values = (t', none) → Reachable (db.setTable n t')
  | delete (db : Database) (n : String) (t : Table) (cond : Cond)
      (t' : Table) (k : Nat) :
      Reachable db → db.getTable n = some t →
      t.delete cond = (t', k, none) → Reachable (db.setTable n t')
  | load (db db₂ db' : Database) :
      Reachable db → Reachable db₂ →
      db.loadFromDisk (some db₂.saveToDisk) = (db', none) →
      Reachable db'

/-- Structural well-formedness the Go runtime guarantees and the
operations maintain: catalog and row maps have distinct keys, and every
row conforms to its table's columns. -/
structure DbWF (db : Database) : Prop where
  tablesNodup : db.tables.nodupKeys
  rowsNodup : ∀ p ∈ db.tables, ∀ r ∈ p.2.rows, SMap.nodupKeys r
  conforms : ∀ p ∈ db.tables, tableConformsB p.2 = true

/-! ## Association-map lemmas -/

theorem SMap.get_set {α : Type} (m : SMap α) (k : String) (v : α)
    (k' : String) :
    SMap.get (SMap.set m k v) k' = if k = k' then some v else SMap.get m k' := by
  induction m with
  | nil =>
      by_cases h : k = k' <;> simp [SMap.set, SMap.get, h]
  | cons p rest ih =>
      obtain ⟨k0, v0⟩ := p
      by_cases h0 : k0 = k
      · subst h0
        by_cases h : k0 = k' <;> simp [SMap.set, SMap.get, h]
      · by_cases h : k0 = k'
        · subst h
          have hkk : ¬k = k0 := fun hc => h0 hc.symm
          simp [SMap.set, SMap.get, h0, hkk]
        · simp [SMap.set, SMap.get, h0, h, ih]

theorem SMap.keys_set {α : Type} (m : SMap α) (k : String) (v : α) :
    SMap.keys (SMap.set m k v) =
      if k ∈ SMap.keys m then SMap.keys m else SMap.keys m ++ [k] := by
  induction m with
  | nil => simp [SMap.set, SMap.keys]
  | cons p rest ih =>
      obtain ⟨k0, v0⟩ := p
      by_cases h0 : k0 = k
      · subst h0
        simp [SMap.set, SMap.keys]
      · have hne : ¬k = k0 := fun hc => h0 hc.symm
        by_cases hmem : k ∈ SMap.keys rest
        · simp only [SMap.keys, List.map] at ih ⊢
          simp only [SMap.set, if_neg h0, List.map]
          rw [if_pos (List.mem_cons_of_mem k0 (by simpa [SMap.keys] using hmem))]
          rw [if_pos (by simpa [SMap.keys] using hmem)] at ih
          exact congrArg (k0 :: ·) ih
        · simp only [SMap.keys, List.map] at ih ⊢
          simp only [SMap.set, if_neg h0, List.map]
          rw [if_neg (by
              rw [List.mem_cons]
              rintro (h | h)
              · exact hne h
              · exact hmem (by simpa [SMap.keys] using h))]
          rw [if_neg (by simpa [SMap.keys] using hmem)] at ih
          simpa using congrArg (k0 :: ·) ih

theorem SMap.nodupKeys_set {α : Type} (m : SMap α) (k : String) (v : α)
    (h : m.nodupKeys) : (SMap.set m k v).nodupKeys := by
  unfold SMap.nodupKeys at h ⊢
  rw [SMap.keys_set]
  by_cases hmem : k ∈ SMap.keys m
  · rw [if_pos hmem]; exact h
  · rw [if_neg hmem]
    rw [List.nodup_append]
    refine ⟨h, List.nodup_singleton k, ?_⟩
    intro a ha hb
    simp at hb
    subst hb
    exact hmem ha

theorem SMap.mem_set {α : Type} (m : SMap α) (k : String) (v : α)
    (p : String × α) (h : p ∈ SMap.set m k v) : p = (k, v) ∨ p ∈ m := by
  induction m with
  | nil => simpa [SMap.set] using h
  | cons q rest ih =>
      obtain ⟨k0, v0⟩ := q
      by_cases h0 : k0 = k
      · subst h0
        simp [SMap.set] at h
        rcases h with h | h
        · exact Or.inl h
        · exact Or.inr (List.mem_cons_of_mem _ h)
      · simp [SMap.set, h0] at h
        rcases h with h | h
        · exact Or.inr (by simp [h])
        · rcases ih h with h' | h'
          · exact Or.inl h'
          · exact Or.inr (List.mem_cons_of_mem _ h')

theorem SMap.get_mem {α : Type} (m : SMap α) (k : String) (v : α)
    (h : SMap.get m k = some v) : (k, v) ∈ m := by
  induction m with
  | nil => simp [SMap.get] at h
  | cons q rest ih =>
      obtain ⟨k0, v0⟩ := q
      by_cases h0 : k0 = k
      · subst h0
        simp [SMap.get] at h
        simp [h]
      · simp [SMap.get, h0] at h
        exact List.mem_cons_of_mem _ (ih h)

theorem SMap.get_eq_none {α : Type} (m : SMap α) (k : String)
    (h : k ∉ SMap.keys m) : SMap.get m k = none := by
  induction m with
  | nil => simp [SMap.get]
  | cons q rest ih =>
      obtain ⟨k0, v0⟩ := q
      simp [SMap.keys] at h
      have h0 : ¬k0 = k := fun hc => h.1 hc.symm
      simp [SMap.get, h0]
      exact ih (by simpa [SMap.keys] using h.2)

theorem SMap.set_eq_append {α : Type} (m : SMap α) (k : String) (v : α)
    (h : k ∉ SMap.keys m) : SMap.set m k v = m ++ [(k, v)] := by
  induction m with
  | nil => simp [SMap.set]
  | cons q rest ih =>
      obtain ⟨k0, v0⟩ := q
      simp [SMap.keys] at h
      have h0 : ¬k0 = k := fun hc => h.1 hc.symm
      simp [SMap.set, h0]
      exact ih (by simpa [SMap.keys] using h.2)

theorem SMap.foldl_set_eq_append {α : Type} (l : List (String × α))
    (acc : SMap α) (h : (SMap.keys acc ++ SMap.keys l).Nodup) :
    l.foldl (fun a p => SMap.set a p.1 p.2) acc = acc ++ l := by
  induction l generalizing acc with
  | nil => simp
  | cons q rest ih =>
      obtain ⟨k0, v0⟩ := q
      simp [SMap.keys] at h
      have hk0 : k0 ∉ SMap.keys acc := by
        intro hc
        exact ((List.nodup_append.mp h).2.2 hc) (by simp [SMap.keys])
      have hset : SMap.set acc k0 v0 = acc ++ [(k0, v0)] :=
        SMap.set_eq_append acc k0 v0 hk0
      have hkeys : (SMap.keys (SMap.set acc k0 v0) ++
          SMap.keys rest).Nodup := by
        have hk : SMap.keys (SMap.set acc k0 v0) =
            SMap.keys acc ++ [k0] := by
          rw [hset]; simp [SMap.keys]
        rw [hk]
        have hperm : (SMap.keys acc ++ [k0] ++ SMap.keys rest).Perm
            (SMap.keys acc ++ (k0 :: SMap.keys rest)) := by
          simp [List.append_assoc]
        exact hperm.nodup_iff.mpr (by simpa [SMap.keys] using h)
      calc (List.foldl (fun a p => SMap.set a p.1 p.2) acc
              ((k0, v0) :: rest))
          = List.foldl (fun a p => SMap.set a p.1 p.2)
              (SMap.set acc k0 v0) rest := by simp
        _ = SMap.set acc k0 v0 ++ rest := ih _ hkeys
        _ = acc ++ ((k0, v0) :: rest) := by rw [hset]; simp

theorem SMap.nodupKeys_foldl_set {α : Type} (l : List (String × α))
    (acc : SMap α) (h : acc.nodupKeys) :
    (l.foldl (fun a p => SMap.set a p.1 p.2) acc).nodupKeys := by
  induction l generalizing acc with
  | nil => simpa using h
  | cons q rest ih =>
      simpa using ih (SMap.set acc q.1 q.2) (SMap.nodupKeys_set _ _ _ h)

theorem SMap.get_foldl_set_of_absent {α : Type} (l : List (String × α))
    (acc : SMap α) (k : String) (h : k ∉ l.map (fun p => p.1)) :
    SMap.get (l.foldl (fun a p => SMap.set a p.1 p.2) acc) k =
      SMap.get acc k := by
  induction l generalizing acc with
  | nil => simp
  | cons q rest ih =>
      simp only [List.map_cons, List.mem_cons, not_or] at h
      have hq : SMap.get (SMap.set acc q.1 q.2) k = SMap.get acc k := by
        rw [SMap.get_set]
        rw [if_neg (fun hc => h.1 hc.symm)]
      calc SMap.get (List.foldl (fun a p => SMap.set a p.1 p.2)
              (SMap.set acc q.1 q.2) rest) k
          = SMap.get (SMap.set acc q.1 q.2) k := ih _ h.2
        _ = SMap.get acc k := hq

/-! ## Row-operation lemmas -/

theorem SMap.not_mem_keys_of_get_none {α : Type} (m : SMap α) (k : String)
    (h : SMap.get m k = none) : k ∉ SMap.keys m := by
  induction m with
  | nil => simp [SMap.keys]
  | cons q rest ih =>
      obtain ⟨k0, v0⟩ := q
      by_cases h0 : k0 = k
      · simp [SMap.get, h0] at h
      · simp only [SMap.get, if_neg h0] at h
        simp only [SMap.keys, List.map_cons, List.mem_cons, not_or]
        exact ⟨fun hc => h0 hc.symm, by simpa [SMap.keys] using ih h⟩

theorem copyRow_eq (r : Row) (h : r.nodupKeys) : copyRow r = r := by
  unfold copyRow
  have h' : (SMap.keys ([] : Row) ++ SMap.keys r).Nodup := by
    simpa [SMap.keys] using h
  simpa using SMap.foldl_set_eq_append r ([] : Row) h'

theorem SMap.get_foldl_set_of_get_some {α : Type} (l : List (String × α)) :
    ∀ (acc : SMap α) (k : String) (v : α), (SMap.keys l).Nodup →
      SMap.get l k = some v →
      SMap.get (l.foldl (fun a p => SMap.set a p.1 p.2) acc) k = some v := by
  induction l with
  | nil => intro acc k v _ h; simp [SMap.get] at h
  | cons q rest ih =>
      intro acc k v hnd h
      obtain ⟨k0, v0⟩ := q
      have hcons : SMap.keys ((k0, v0) :: rest) = k0 :: SMap.keys rest := rfl
      rw [hcons] at hnd
      have hnd2 := List.nodup_cons.mp hnd
      by_cases h0 : k0 = k
      · subst h0
        have hv : v0 = v := by simpa [SMap.get] using h
        rw [List.foldl_cons]
        rw [SMap.get_foldl_set_of_absent rest (SMap.set acc k0 v0) k0
          (by simpa [SMap.keys] using hnd2.1)]
        rw [SMap.get_set, if_pos rfl, hv]
      · have h' : SMap.get rest k = some v := by
          simpa [SMap.get, h0] using h
        rw [List.foldl_cons]
        exact ih (SMap.set acc k0 v0) k v hnd2.2 h'

theorem applyValues_get_of_some (r values : Row) (k : String) (v : Value)
    (hnd : values.nodupKeys) (h : SMap.get values k = some v) :
    SMap.get (applyValues r values) k = some v :=
  SMap.get_foldl_set_of_get_some values r k v hnd h

theorem applyValues_get_of_none (r values : Row) (k : String)
    (h : SMap.get values k = none) :
    SMap.get (applyValues r values) k = SMap.get r k :=
  SMap.get_foldl_set_of_absent values r k
    (by simpa [SMap.keys] using SMap.not_mem_keys_of_get_none values k h)

theorem applyValues_nodup (r values : Row) (h : r.nodupKeys) :
    (applyValues r values).nodupKeys :=
  SMap.nodupKeys_foldl_set values r h

theorem insertRowLoop_ok_get_absent :
    ∀ (cols : List Column) (values acc row : Row),
      insertRowLoop cols values acc = .ok row →
      ∀ k, (∀ c ∈ cols, c.name ≠ k) →
      SMap.get row k = SMap.get acc k := by
  intro cols
  induction cols with
  | nil =>
      intro values acc row h k _
      simp only [insertRowLoop, Except.ok.injEq] at h
      rw [h]
  | cons c0 rest ih =>
      intro values acc row h k hk
      cases hv : SMap.get values c0.name with
      | none =>
          simp only [insertRowLoop, hv] at h
          exact Except.noConfusion h
      | some v =>
          simp only [insertRowLoop, hv] at h
          by_cases hval : validateValueType c0 v
          · rw [if_pos hval] at h
            rw [ih values _ row h k
              (fun c hc => hk c (List.mem_cons_of_mem c0 hc))]
            rw [SMap.get_set]
            rw [if_neg (hk c0 (List.mem_cons_self c0 rest))]
          · rw [if_neg hval] at h
            exact Except.noConfusion h

theorem insertRowLoop_ok_get_mem :
    ∀ (cols : List Column) (values acc row : Row),
      insertRowLoop cols values acc = .ok row →
      ∀ c ∈ cols, SMap.get row c.name = SMap.get values c.name := by
  intro cols
  induction cols with
  | nil => intro values acc row _ c hc; simp at hc
  | cons c0 rest ih =>
      intro values acc row h c hc
      cases hv : SMap.get values c0.name with
      | none =>
          simp only [insertRowLoop, hv] at h
          exact Except.noConfusion h
      | some v =>
          simp only [insertRowLoop, hv] at h
          by_cases hval : validateValueType c0 v
          · rw [if_pos hval] at h
            rcases List.mem_cons.mp hc with hc' | hc'
            · subst hc'
              by_cases hmem : ∃ c' ∈ rest, c'.name = c.name
              · obtain ⟨c', hc', hname⟩ := hmem
                rw [← hname, ih values _ row h c' hc', hname]
              · push_neg at hmem
                rw [insertRowLoop_ok_get_absent rest values _ row h c.name
                  hmem]
                rw [SMap.get_set, if_pos rfl, hv]
            · exact ih values _ row h c hc'
          · rw [if_neg hval] at h
            exact Except.noConfusion h

theorem insertRowLoop_ok_validated :
    ∀ (cols : List Column) (values acc row : Row),
      insertRowLoop cols values acc = .ok row →
      ∀ c ∈ cols, ∃ v, SMap.get values c.name = some v ∧
        validateValueType c v = true := by
  intro cols
  induction cols with
  | nil => intro values acc row _ c hc; simp at hc
  | cons c0 rest ih =>
      intro values acc row h c hc
      cases hv : SMap.get values c0.name with
      | none =>
          simp only [insertRowLoop, hv] at h
          exact Except.noConfusion h
      | some v =>
          simp only [insertRowLoop, hv] at h
          by_cases hval : validateValueType c0 v
          · rw [if_pos hval] at h
            rcases List.mem_cons.mp hc with hc' | hc'
            · subst hc'; exact ⟨v, hv, hval⟩
            · exact ih values _ row h c hc'
          · rw [if_neg hval] at h
            exact Except.noConfusion h

theorem insertRowLoop_ok_of_forall :
    ∀ (cols : List Column) (values acc : Row),
      (∀ c ∈ cols, ∃ v, SMap.get values c.name = some v ∧
        validateValueType c v = true) →
      ∃ row, insertRowLoop cols values acc = .ok row := by
  intro cols
  induction cols with
  | nil => intro values acc _; exact ⟨acc, rfl⟩
  | cons c0 rest ih =>
      intro values acc h
      obtain ⟨v, hv, hval⟩ := h c0 (List.mem_cons_self c0 rest)
      obtain ⟨row, hrow⟩ := ih values (SMap.set acc c0.name v)
        (fun c hc => h c (List.mem_cons_of_mem c0 hc))
      exact ⟨row, by simp [insertRowLoop, hv, hval, hrow]⟩

theorem insertRowLoop_error_missing :
    ∀ (cols : List Column) (values acc : Row) (n : String),
      insertRowLoop cols values acc = .error (.missingColumn n) →
      ∃ c ∈ cols, c.name = n ∧ SMap.get values n = none := by
  intro cols
  induction cols with
  | nil => intro values acc n h; simp [insertRowLoop] at h
  | cons c0 rest ih =>
      intro values acc n h
      cases hv : SMap.get values c0.name with
      | none =>
          simp only [insertRowLoop, hv, Except.error.injEq,
            DBError.missingColumn.injEq] at h
          exact ⟨c0, List.mem_cons_self c0 rest, h, h ▸ hv⟩
      | some v =>
          simp only [insertRowLoop, hv] at h
          by_cases hval : validateValueType c0 v
          · rw [if_pos hval] at h
            obtain ⟨c, hc, h1, h2⟩ := ih values _ n h
            exact ⟨c, List.mem_cons_of_mem c0 hc, h1, h2⟩
          · rw [if_neg hval] at h
            simp at h

theorem insertRowLoop_error_mismatch :
    ∀ (cols : List Column) (values acc : Row) (n : String),
      insertRowLoop cols values acc = .error (.typeMismatch n) →
      ∃ c ∈ cols, c.name = n ∧ ∃ v, SMap.get values n = some v ∧
        validateValueType c v = false := by
  intro cols
  induction cols with
  | nil => intro values acc n h; simp [insertRowLoop] at h
  | cons c0 rest ih =>
      intro values acc n h
      cases hv : SMap.get values c0.name with
      | none =>
          simp only [insertRowLoop, hv] at h
          simp at h
      | some v =>
          simp only [insertRowLoop, hv] at h
          by_cases hval : validateValueType c0 v
          · rw [if_pos hval] at h
            obtain ⟨c, hc, h1, h2⟩ := ih values _ n h
            exact ⟨c, List.mem_cons_of_mem c0 hc, h1, h2⟩
          · rw [if_neg hval] at h
            simp only [Except.error.injEq, DBError.typeMismatch.injEq] at h
            subst h
            exact ⟨c0, List.mem_cons_self c0 rest, rfl, v, hv,
              by simpa using hval⟩

theorem insertRowLoop_error_kinds :
    ∀ (cols : List Column) (values acc : Row) (e : DBError),
      insertRowLoop cols values acc = .error e →
      (∃ n, e = .missingColumn n) ∨ (∃ n, e = .typeMismatch n) := by
  intro cols
  induction cols with
  | nil => intro values acc e h; simp [insertRowLoop] at h
  | cons c0 rest ih =>
      intro values acc e h
      cases hv : SMap.get values c0.name with
      | none =>
          simp only [insertRowLoop, hv, Except.error.injEq] at h
          exact Or.inl ⟨c0.name, h.symm⟩
      | some v =>
          simp only [insertRowLoop, hv] at h
          by_cases hval : validateValueType c0 v
          · rw [if_pos hval] at h
            exact ih values _ e h
          · rw [if_neg hval] at h
            simp only [Except.error.injEq] at h
            exact Or.inr ⟨c0.name, h.symm⟩

theorem insertRowLoop_nodup :
    ∀ (cols : List Column) (values acc row : Row),
      acc.nodupKeys → insertRowLoop cols values acc = .ok row →
      row.nodupKeys := by
  intro cols
  induction cols with
  | nil =>
      intro values acc row hnd h
      simp only [insertRowLoop, Except.ok.injEq] at h
      exact h ▸ hnd
  | cons c0 rest ih =>
      intro values acc row hnd h
      cases hv : SMap.get values c0.name with
      | none =>
          simp only [insertRowLoop, hv] at h
          exact Except.noConfusion h
      | some v =>
          simp only [insertRowLoop, hv] at h
          by_cases hval : validateValueType c0 v
          · rw [if_pos hval] at h
            exact ih values _ row (SMap.nodupKeys_set _ _ _ hnd) h
          · rw [if_neg hval] at h
            exact Except.noConfusion h

theorem validateUpdateValues_none_iff (cols : List Column) (values : Row) :
    validateUpdateValues cols values = none ↔
      ∀ c ∈ cols, ∀ v, SMap.get values c.name = some v →
        validateValueType c v = true := by
  induction cols with
  | nil => simp [validateUpdateValues]
  | cons c0 rest ih =>
      cases hv : SMap.get values c0.name with
      | none =>
          simp only [validateUpdateValues, hv]
          rw [ih]
          constructor
          · intro h c hc v hcv
            rcases List.mem_cons.mp hc with hc' | hc'
            · subst hc'; rw [hv] at hcv; cases hcv
            · exact h c hc' v hcv
          · intro h c hc v hcv
            exact h c (List.mem_cons_of_mem c0 hc) v hcv
      | some v =>
          simp only [validateUpdateValues, hv]
          by_cases hval : validateValueType c0 v
          · rw [if_pos hval, ih]
            constructor
            · intro h c hc w hcw
              rcases List.mem_cons.mp hc with hc' | hc'
              · subst hc'
                rw [hv] at hcw
                cases hcw
                exact hval
              · exact h c hc' w hcw
            · intro h c hc w hcw
              exact h c (List.mem_cons_of_mem c0 hc) w hcw
          · rw [if_neg hval]
            constructor
            · intro h; cases h
            · intro h
              exact absurd (h c0 (List.mem_cons_self c0 rest) v hv) hval

theorem validateUpdateValues_some (cols : List Column) (values : Row)
    (e : DBError) (h : validateUpdateValues cols values = some e) :
    ∃ c ∈ cols, e = .typeMismatch c.name ∧ ∃ v,
      SMap.get values c.name = some v ∧ validateValueType c v = false := by
  induction cols with
  | nil => simp [validateUpdateValues] at h
  | cons c0 rest ih =>
      cases hv : SMap.get values c0.name with
      | none =>
          simp only [validateUpdateValues, hv] at h
          obtain ⟨c, hc, h1, h2⟩ := ih h
          exact ⟨c, List.mem_cons_of_mem c0 hc, h1, h2⟩
      | some v =>
          simp only [validateUpdateValues, hv] at h
          by_cases hval : validateValueType c0 v
          · rw [if_pos hval] at h
            obtain ⟨c, hc, h1, h2⟩ := ih h
            exact ⟨c, List.mem_cons_of_mem c0 hc, h1, h2⟩
          · rw [if_neg hval] at h
            refine ⟨c0, List.mem_cons_self c0 rest, ?_, v, hv,
              by simpa using hval⟩
            simpa using h.symm

/-! ## Snapshot codec lemmas -/

theorem jsonToValue_encodeValue (v : Value) :
    jsonToValue (encodeValue v) = some (valueRT v) := by
  cases v <;> rfl

theorem validate_valueRT (c : Column) (v : Value) :
    validateValueType c (valueRT v) = validateValueType c v := by
  cases v with
  | int n =>
      unfold valueRT validateValueType
      by_cases h0 : c.ty = TypeInt
      · simp [h0, Rat.den_intCast]
      · by_cases h1 : c.ty = TypeString <;> simp [h0, h1]
  | null => rfl
  | bool b => rfl
  | num q => rfl
  | str s => rfl

theorem SMap.keys_map_snd {α β : Type} (m : SMap α) (f : String → α → β) :
    SMap.keys (m.map (fun p => (p.1, f p.1 p.2))) = SMap.keys m := by
  simp [SMap.keys, List.map_map]

theorem rowRT_get (r : Row) (k : String) :
    SMap.get (rowRT r) k = (SMap.get r k).map valueRT := by
  induction r with
  | nil => rfl
  | cons q rest ih =>
      obtain ⟨k0, v0⟩ := q
      by_cases h0 : k0 = k
      · simp [rowRT, SMap.get, h0]
      · simp only [rowRT, List.map_cons, SMap.get, if_neg h0]
        simpa [rowRT] using ih

theorem rowRT_keys (r : Row) : SMap.keys (rowRT r) = SMap.keys r := by
  simpa [rowRT] using SMap.keys_map_snd r (fun _ v => valueRT v)

theorem rowRT_nodup (r : Row) (h : r.nodupKeys) : (rowRT r).nodupKeys := by
  unfold SMap.nodupKeys at h ⊢
  rw [rowRT_keys]
  exact h

theorem rowConformsB_rowRT (cols : List Column) (r : Row) :
    rowConformsB cols (rowRT r) = rowConformsB cols r := by
  unfold rowConformsB
  induction cols with
  | nil => rfl
  | cons c0 rest ih =>
      simp only [List.all_cons, ih]
      congr 1
      rw [rowRT_get]
      cases SMap.get r c0.name with
      | none => rfl
      | some v => simpa [Option.map] using validate_valueRT c0 v

theorem jNorm_eq_self (fields : List (String × Json))
    (h : (SMap.keys fields).Nodup) : jNorm fields = fields := by
  unfold jNorm
  simpa using SMap.foldl_set_eq_append fields [] (by simpa [SMap.keys] using h)

theorem decodeRowFields_enc (r : Row) :
    decodeRowFields (r.map (fun p => (p.1, encodeValue p.2))) =
      some (rowRT r) := by
  induction r with
  | nil => rfl
  | cons q rest ih =>
      simp [decodeRowFields, jsonToValue_encodeValue, ih, rowRT]

theorem decodeRow_encodeRow (r : Row) (h : r.nodupKeys) :
    decodeRow (encodeRow r) = some (rowRT r) := by
  simp only [encodeRow, decodeRow]
  rw [jNorm_eq_self _ (by
    simpa [SMap.keys, List.map_map] using
      (by simpa [SMap.nodupKeys] using h : (SMap.keys r).Nodup))]
  exact decodeRowFields_enc r

theorem decodeColumn_encodeColumn (c : Column) :
    decodeColumn (encodeColumn c) = some c := by
  simp [encodeColumn, decodeColumn, jNorm, SMap.set, SMap.get,
    decodeStringField, decodeIntField, Rat.den_intCast, Rat.num_intCast]

theorem decodeColumnList_enc (cols : List Column) :
    decodeColumnList (cols.map encodeColumn) = some cols := by
  induction cols with
  | nil => rfl
  | cons c0 rest ih =>
      simp [decodeColumnList, decodeColumn_encodeColumn, ih]

theorem decodeRowList_enc (rows : List Row)
    (h : ∀ r ∈ rows, r.nodupKeys) :
    decodeRowList (rows.map encodeRow) = some (rows.map rowRT) := by
  induction rows with
  | nil => rfl
  | cons r0 rest ih =>
      simp [decodeRowList,
        decodeRow_encodeRow r0 (h r0 (List.mem_cons_self r0 rest)),
        ih (fun r hr => h r (List.mem_cons_of_mem r0 hr))]

theorem decodeTableData_enc (td : TableData)
    (h : ∀ r ∈ td.rows, r.nodupKeys) :
    decodeTableData (encodeTableData td) =
      some ⟨td.name, td.columns, td.rows.map rowRT⟩ := by
  simp [encodeTableData, decodeTableData, jNorm, SMap.set, SMap.get,
    decodeStringField, decodeColumnsField, decodeRowsField,
    decodeColumnList_enc, decodeRowList_enc td.rows h]

theorem decodeSnapshotEntries_enc :
    ∀ (l : SMap Table),
      (∀ p ∈ l, ∀ r ∈ p.2.rows, SMap.nodupKeys r) →
      decodeSnapshotEntries (l.map (fun p =>
        (p.1, encodeTableData ⟨p.2.name, p.2.columns, p.2.rows⟩))) =
      some (l.map (fun p =>
        (p.1, (⟨p.2.name, p.2.columns, p.2.rows.map rowRT⟩ : TableData)))) := by
  intro l
  induction l with
  | nil => intro _; rfl
  | cons q rest ih =>
      intro h
      have hq := decodeTableData_enc ⟨q.2.name, q.2.columns, q.2.rows⟩
        (fun r hr => h q (List.mem_cons_self q rest) r hr)
      simp [decodeSnapshotEntries, hq,
        ih (fun p hp r hr => h p (List.mem_cons_of_mem q hp) r hr)]

theorem decodeSnapshot_save (db : Database)
    (hnd : db.tables.nodupKeys)
    (hrows : ∀ p ∈ db.tables, ∀ r ∈ p.2.rows, SMap.nodupKeys r) :
    decodeSnapshot db.saveToDisk =
      some (db.tables.map (fun p =>
        (p.1, (⟨p.2.name, p.2.columns, p.2.rows.map rowRT⟩ : TableData)))) := by
  simp only [Database.saveToDisk, decodeSnapshot]
  rw [jNorm_eq_self _ (by
    simpa using (SMap.keys_map_snd db.tables (fun _ t =>
      encodeTableData ⟨t.name, t.columns, t.rows⟩)) ▸
      (by simpa [SMap.nodupKeys] using hnd : (SMap.keys db.tables).Nodup))]
  exact decodeSnapshotEntries_enc db.tables hrows

theorem SMap.mem_foldl_set {α β : Type} (l : List β) (f : β → String)
    (g : β → α) :
    ∀ (acc : SMap α) (p : String × α),
      p ∈ l.foldl (fun a b => SMap.set a (f b) (g b)) acc →
      p ∈ acc ∨ ∃ b ∈ l, p = (f b, g b) := by
  induction l with
  | nil => intro acc p h; exact Or.inl (by simpa using h)
  | cons b0 rest ih =>
      intro acc p h
      rw [List.foldl_cons] at h
      rcases ih (SMap.set acc (f b0) (g b0)) p h with h' | h'
      · rcases SMap.mem_set acc (f b0) (g b0) p h' with h'' | h''
        · exact Or.inr ⟨b0, List.mem_cons_self b0 rest, h''⟩
        · exact Or.inl h''
      · obtain ⟨b, hb, hp⟩ := h'
        exact Or.inr ⟨b, List.mem_cons_of_mem b0 hb, hp⟩

theorem mem_rebuildTables (data : SMap TableData) (p : String × Table)
    (h : p ∈ (rebuildTables data).tables) :
    ∃ q ∈ data, p = (q.2.name, ⟨q.2.name, q.2.columns, q.2.rows⟩) := by
  unfold rebuildTables at h
  rcases SMap.mem_foldl_set data (fun q => q.2.name)
    (fun q => ⟨q.2.name, q.2.columns, q.2.rows⟩) [] p h with h' | h'
  · simp at h'
  · exact h'

/-! ## The reachable-state invariant -/

theorem SMap.nodupKeys_foldl_set_gen {α β : Type} (l : List β)
    (f : β → String) (g : β → α) :
    ∀ (acc : SMap α), acc.nodupKeys →
      (l.foldl (fun a b => SMap.set a (f b) (g b)) acc).nodupKeys := by
  induction l with
  | nil => intro acc h; simpa using h
  | cons b0 rest ih =>
      intro acc h
      rw [List.foldl_cons]
      exact ih _ (SMap.nodupKeys_set _ _ _ h)

theorem rowConformsB_true_iff (cols : List Column) (r : Row) :
    rowConformsB cols r = true ↔
      ∀ c ∈ cols, ∃ v, SMap.get r c.name = some v ∧
        validateValueType c v = true := by
  unfold rowConformsB
  rw [List.all_eq_true]
  constructor
  · intro h c hc
    have := h c hc
    cases hv : SMap.get r c.name with
    | none => rw [hv] at this; simp at this
    | some v => rw [hv] at this; exact ⟨v, rfl, this⟩
  · intro h c hc
    obtain ⟨v, hv, hval⟩ := h c hc
    rw [hv]
    exact hval

theorem tableConformsB_true_iff (t : Table) :
    tableConformsB t = true ↔
      ∀ r ∈ t.rows, rowConformsB t.columns r = true := by
  unfold tableConformsB
  exact List.all_eq_true

theorem reachable_wf (db : Database) (h : Reachable db) : DbWF db := by
  induction h with
  | init =>
      refine ⟨?_, ?_, ?_⟩
      · simp [NewDatabase, SMap.nodupKeys, SMap.keys]
      · intro p hp; simp [NewDatabase] at hp
      · intro p hp; simp [NewDatabase] at hp
  | create db n cols db' hr hstep ih =>
      cases hget : SMap.get db.tables n with
      | some t => simp [Database.createTable, hget] at hstep
      | none =>
          simp only [Database.createTable, hget, Prod.mk.injEq] at hstep
          obtain ⟨hdb, -⟩ := hstep
          subst hdb
          refine ⟨SMap.nodupKeys_set _ _ _ ih.tablesNodup, ?_, ?_⟩
          · intro p hp r hrow
            rcases SMap.mem_set _ _ _ _ hp with hp' | hp'
            · subst hp'; simp at hrow
            · exact ih.rowsNodup p hp' r hrow
          · intro p hp
            rcases SMap.mem_set _ _ _ _ hp with hp' | hp'
            · subst hp'; rfl
            · exact ih.conforms p hp'
  | insert db n t values t' hr hget hstep ih =>
      have hmem : (n, t) ∈ db.tables := SMap.get_mem _ _ _ hget
      cases hloop : insertRowLoop t.columns values [] with
      | error e => simp [Table.insert, hloop] at hstep
      | ok row =>
          simp only [Table.insert, hloop, Prod.mk.injEq] at hstep
          obtain ⟨ht', -⟩ := hstep
          subst ht'
          refine ⟨SMap.nodupKeys_set _ _ _ ih.tablesNodup, ?_, ?_⟩
          · intro p hp r hrow
            rcases SMap.mem_set _ _ _ _ hp with hp' | hp'
            · subst hp'
              simp only at hrow
              rcases List.mem_append.mp hrow with hrow' | hrow'
              · exact ih.rowsNodup (n, t) hmem r hrow'
              · have : r = row := by simpa using hrow'
                subst this
                exact insertRowLoop_nodup t.columns values [] r
                  (by simp [SMap.nodupKeys, SMap.keys]) hloop
            · exact ih.rowsNodup p hp' r hrow
          · intro p hp
            rcases SMap.mem_set _ _ _ _ hp with hp' | hp'
            · subst hp'
              rw [tableConformsB_true_iff]
              intro r hrow
              simp only at hrow
              rcases List.mem_append.mp hrow with hrow' | hrow'
              · exact (tableConformsB_true_iff t).mp
                  (ih.conforms (n, t) hmem) r hrow'
              · have : r = row := by simpa using hrow'
                subst this
                rw [rowConformsB_true_iff]
                intro c hc
                obtain ⟨v, hv, hval⟩ :=
                  insertRowLoop_ok_validated t.columns values [] r hloop c hc
                refine ⟨v, ?_, hval⟩
                rw [insertRowLoop_ok_get_mem t.columns values [] r hloop c hc]
                exact hv
            · exact ih.conforms p hp'
  | update db n t cond values t' hr hget hnd hstep ih =>
      have hmem : (n, t) ∈ db.tables := SMap.get_mem _ _ _ hget
      cases hvv : validateUpdateValues t.columns values with
      | some e => simp [Table.update, hvv] at hstep
      | none =>
          simp only [Table.update, hvv] at hstep
          by_cases hany : t.rows.any (fun r => matchesCond cond r)
          · rw [if_pos hany] at hstep
            simp only [Prod.mk.injEq] at hstep
            obtain ⟨ht', -⟩ := hstep
            subst ht'
            refine ⟨SMap.nodupKeys_set _ _ _ ih.tablesNodup, ?_, ?_⟩
            · intro p hp r hrow
              rcases SMap.mem_set _ _ _ _ hp with hp' | hp'
              · subst hp'
                simp only at hrow
                obtain ⟨r0, hr0, hr⟩ := List.mem_map.mp hrow
                by_cases hm : matchesCond cond r0
                · rw [if_pos hm] at hr
                  subst hr
                  exact applyValues_nodup r0 values
                    (ih.rowsNodup (n, t) hmem r0 hr0)
                · rw [if_neg hm] at hr
                  subst hr
                  exact ih.rowsNodup (n, t) hmem r0 hr0
              · exact ih.rowsNodup p hp' r hrow
            · intro p hp
              rcases SMap.mem_set _ _ _ _ hp with hp' | hp'
              · subst hp'
                rw [tableConformsB_true_iff]
                intro r hrow
                simp only at hrow
                obtain ⟨r0, hr0, hr⟩ := List.mem_map.mp hrow
                have hconf0 : rowConformsB t.columns r0 = true :=
                  (tableConformsB_true_iff t).mp
                    (ih.conforms (n, t) hmem) r0 hr0
                by_cases hm : matchesCond cond r0
                · rw [if_pos hm] at hr
                  subst hr
                  rw [rowConformsB_true_iff]
                  intro c hc
                  cases hv : SMap.get values c.name with
                  | some v =>
                      refine ⟨v, applyValues_get_of_some r0 values _ v hnd hv,
                        ?_⟩
                      exact (validateUpdateValues_none_iff
                        t.columns values).mp hvv c hc v hv
                  | none =>
                      obtain ⟨v, hv0, hval0⟩ :=
                        (rowConformsB_true_iff t.columns r0).mp hconf0 c hc
                      refine ⟨v, ?_, hval0⟩
                      rw [applyValues_get_of_none r0 values _ hv]
                      exact hv0
                · rw [if_neg hm] at hr
                  subst hr
                  exact hconf0
              · exact ih.conforms p hp'
          · rw [if_neg hany] at hstep
            simp at hstep
  | delete db n t cond t' k hr hget hstep ih =>
      have hmem : (n, t) ∈ db.tables := SMap.get_mem _ _ _ hget
      simp only [Table.delete] at hstep
      split at hstep
      · simp at hstep
      · simp only [Prod.mk.injEq] at hstep
        obtain ⟨ht', -⟩ := hstep
        subst ht'
        refine ⟨SMap.nodupKeys_set _ _ _ ih.tablesNodup, ?_, ?_⟩
        · intro p hp r hrow
          rcases SMap.mem_set _ _ _ _ hp with hp' | hp'
          · subst hp'
            simp only at hrow
            exact ih.rowsNodup (n, t) hmem r (List.mem_of_mem_filter hrow)
          · exact ih.rowsNodup p hp' r hrow
        · intro p hp
          rcases SMap.mem_set _ _ _ _ hp with hp' | hp'
          · subst hp'
            rw [tableConformsB_true_iff]
            intro r hrow
            simp only at hrow
            exact (tableConformsB_true_iff t).mp (ih.conforms (n, t) hmem)
              r (List.mem_of_mem_filter hrow)
          · exact ih.conforms p hp'
  | load db db₂ db' hr hr₂ hstep ih ih₂ =>
      have hdec := decodeSnapshot_save db₂ ih₂.tablesNodup ih₂.rowsNodup
      simp only [Database.loadFromDisk, hdec, Prod.mk.injEq] at hstep
      obtain ⟨hdb, -⟩ := hstep
      subst hdb
      refine ⟨?_, ?_, ?_⟩
      · exact SMap.nodupKeys_foldl_set_gen _ _ _ []
          (by simp [SMap.nodupKeys, SMap.keys])
      · intro p hp r hrow
        obtain ⟨q, hq, hpq⟩ := mem_rebuildTables _ p hp
        obtain ⟨p₁, hp₁, hqp₁⟩ := List.mem_map.mp hq
        subst hqp₁
        subst hpq
        simp only at hrow
        obtain ⟨r₀, hr₀, hrr⟩ := List.mem_map.mp hrow
        subst hrr
        exact rowRT_nodup r₀ (ih₂.rowsNodup p₁ hp₁ r₀ hr₀)
      · intro p hp
        obtain ⟨q, hq, hpq⟩ := mem_rebuildTables _ p hp
        obtain ⟨p₁, hp₁, hqp₁⟩ := List.mem_map.mp hq
        subst hqp₁
        subst hpq
        rw [tableConformsB_true_iff]
        intro r hrow
        simp only at hrow
        obtain ⟨r₀, hr₀, hrr⟩ := List.mem_map.mp hrow
        subst hrr
        rw [rowConformsB_rowRT]
        exact (tableConformsB_true_iff p₁.2).mp (ih₂.conforms p₁ hp₁) r₀ hr₀

/-! ## Round-trip assembly lemmas -/

theorem valueRT_eq_self (v : Value) (h : v.isGoInt = false) :
    valueRT v = v := by
  cases v with
  | int n => simp [Value.isGoInt] at h
  | null => rfl
  | bool b => rfl
  | num q => rfl
  | str s => rfl

theorem rowRT_eq_self (r : Row)
    (h : r.all (fun q => !q.2.isGoInt) = true) : rowRT r = r := by
  induction r with
  | nil => rfl
  | cons q rest ih =>
      rw [List.all_cons, Bool.and_eq_true] at h
      unfold rowRT at ih ⊢
      rw [List.map_cons, ih h.2]
      rw [valueRT_eq_self q.2 (by simpa using h.1)]

theorem rebuild_fold_eq :
    ∀ (data : SMap TableData) (acc : SMap Table),
      (∀ q ∈ data, q.2.name = q.1) →
      (SMap.keys acc ++ SMap.keys data).Nodup →
      data.foldl (fun a q =>
          SMap.set a q.2.name ⟨q.2.name, q.2.columns, q.2.rows⟩) acc =
        acc ++ data.map (fun q =>
          (q.1, (⟨q.2.name, q.2.columns, q.2.rows⟩ : Table))) := by
  intro data
  induction data with
  | nil => intro acc _ _; simp
  | cons q0 rest ih =>
      intro acc hname hnd
      have hq0 : q0.2.name = q0.1 := hname q0 (List.mem_cons_self q0 rest)
      have hcons : SMap.keys (q0 :: rest) = q0.1 :: SMap.keys rest := rfl
      rw [hcons] at hnd
      have hk0 : q0.1 ∉ SMap.keys acc := by
        intro hc
        exact (List.nodup_append.mp hnd).2.2 hc (by simp)
      have hset : SMap.set acc q0.2.name ⟨q0.2.name, q0.2.columns, q0.2.rows⟩
          = acc ++ [(q0.1, (⟨q0.2.name, q0.2.columns, q0.2.rows⟩ : Table))] := by
        rw [hq0]
        exact SMap.set_eq_append acc q0.1 _ hk0
      have hkeys2 : (SMap.keys (acc ++
          [(q0.1, (⟨q0.2.name, q0.2.columns, q0.2.rows⟩ : Table))]) ++
          SMap.keys rest).Nodup := by
        have hk : SMap.keys (acc ++
            [(q0.1, (⟨q0.2.name, q0.2.columns, q0.2.rows⟩ : Table))]) =
            SMap.keys acc ++ [q0.1] := by
          simp [SMap.keys]
        rw [hk]
        have hperm : (SMap.keys acc ++ [q0.1] ++ SMap.keys rest).Perm
            (SMap.keys acc ++ (q0.1 :: SMap.keys rest)) := by
          simp [List.append_assoc]
        exact hperm.nodup_iff.mpr hnd
      calc List.foldl (fun a q =>
              SMap.set a q.2.name ⟨q.2.name, q.2.columns, q.2.rows⟩) acc
              (q0 :: rest)
          = List.foldl (fun a q =>
              SMap.set a q.2.name ⟨q.2.name, q.2.columns, q.2.rows⟩)
              (SMap.set acc q0.2.name ⟨q0.2.name, q0.2.columns, q0.2.rows⟩)
              rest := by simp
        _ = acc ++ [(q0.1, (⟨q0.2.name, q0.2.columns, q0.2.rows⟩ : Table))]
              ++ rest.map (fun q =>
                (q.1, (⟨q.2.name, q.2.columns, q.2.rows⟩ : Table))) := by
              rw [hset]
              exact ih _ (fun q hq =>
                hname q (List.mem_cons_of_mem q0 hq)) hkeys2
        _ = acc ++ (q0 :: rest).map (fun q =>
              (q.1, (⟨q.2.name, q.2.columns, q.2.rows⟩ : Table))) := by
              simp [hq0]

/-! ## Claim C1: the row/column invariant -/

/-- C1 (counterexample): the literal invariant — every reachable row's
key set equals exactly the table's column name set — is false: a
successful `Update` whose `values` map carries a key naming no declared
column writes that key into every matching row.  The state below is
reached by CreateTable, one Insert and one such Update, and its row has
key set `id, x` against the single declared column `id`. -/
theorem C1_counterexample :
    Reachable (Database.mk [("users", ⟨"users", [⟨"id", TypeInt⟩],
      [[("id", Value.num 1), ("x", Value.str "boom")]]⟩)]) ∧
    dbExactB (Database.mk [("users", ⟨"users", [⟨"id", TypeInt⟩],
      [[("id", Value.num 1), ("x", Value.str "boom")]]⟩)]) = false := by
  constructor
  · have h1 : Reachable (Database.mk [("users",
        ⟨"users", [⟨"id", TypeInt⟩], []⟩)]) :=
      Reachable.create NewDatabase "users" [⟨"id", TypeInt⟩] _
        Reachable.init (by decide)
    have h2 : Reachable (Database.mk [("users",
        ⟨"users", [⟨"id", TypeInt⟩], [[("id", Value.num 1)]]⟩)]) :=
      Reachable.insert _ "users" ⟨"users", [⟨"id", TypeInt⟩], []⟩
        [("id", Value.num 1)] ⟨"users", [⟨"id", TypeInt⟩],
          [[("id", Value.num 1)]]⟩ h1 (by decide) (by decide)
    exact Reachable.update _ "users"
      ⟨"users", [⟨"id", TypeInt⟩], [[("id", Value.num 1)]]⟩
      (some (condFromList [])) [("x", Value.str "boom")]
      ⟨"users", [⟨"id", TypeInt⟩],
        [[("id", Value.num 1), ("x", Value.str "boom")]]⟩
      h2 (by decide) (by decide) (by decide)
  · decide

/-- C1 (amended): for every catalog reachable by CreateTable, Insert,
Update, Delete and LoadFromDisk of a previously saved reachable
snapshot, every row of every table contains a value for every declared
column whose kind matches the column's declared type (so the row's key
set is a superset of the column name set; equality can be broken by an
Update carrying undeclared keys, which are stored alongside). -/
theorem C1_amended_invariant (db : Database) (h : Reachable db) :
    dbConformsB db = true := by
  have hwf := reachable_wf db h
  unfold dbConformsB
  rw [List.all_eq_true]
  intro p hp
  exact hwf.conforms p hp

/-- C1 witness: the amended invariant evaluated on a concrete reachable
catalog. -/
theorem C1_amended_witness :
    dbConformsB (Database.mk [("users", ⟨"users", [⟨"id", TypeInt⟩],
      [[("id", Value.num 1)]]⟩)]) = true :=
  C1_amended_invariant
    (Database.mk [("users", ⟨"users", [⟨"id", TypeInt⟩],
      [[("id", Value.num 1)]]⟩)])
    (Reachable.insert
      (Database.mk [("users", ⟨"users", [⟨"id", TypeInt⟩], []⟩)])
      "users" ⟨"users", [⟨"id", TypeInt⟩], []⟩
      [("id", Value.num 1)]
      ⟨"users", [⟨"id", TypeInt⟩], [[("id", Value.num 1)]]⟩
      (Reachable.create NewDatabase "users" [⟨"id", TypeInt⟩]
        (Database.mk [("users", ⟨"users", [⟨"id", TypeInt⟩], []⟩)])
        Reachable.init (by decide))
      (by decide) (by decide))

/-! ## Claim C2: Update validation -/

/-- C2 (counterexample): an Update whose `values` map holds one key
naming no declared column ("nickname") neither fails nor leaves the
rows alone: it succeeds and writes the unknown key into the matching
row.  This refutes "returns an error (TypeMismatch/UnknownColumn) and
mutates zero rows" for inputs with unknown column names. -/
theorem C2_counterexample :
    (Table.update ⟨"users", [⟨"id", TypeInt⟩], [[("id", Value.num 1)]]⟩
        (some (condFromList [("id", Value.num 1)]))
        [("nickname", Value.str "x")]).2 = none ∧
    (Table.update ⟨"users", [⟨"id", TypeInt⟩], [[("id", Value.num 1)]]⟩
        (some (condFromList [("id", Value.num 1)]))
        [("nickname", Value.str "x")]).1 ≠
      ⟨"users", [⟨"id", TypeInt⟩], [[("id", Value.num 1)]]⟩ := by
  constructor
  · decide
  · decide

/-- C2 (amended): Update validates the types of the values provided for
declared columns before touching any row — if any such value
kind-mismatches its column, the call fails with TypeMismatch and the
table (hence every row) is unchanged; when all declared-column values
are well-typed, validation never rejects the request — keys naming no
declared column are not validated — and only NotFound remains as a
possible error. -/
theorem C2_amended (t : Table) (cond : Cond) (values : Row) :
    ((∃ c ∈ t.columns, ∃ v, SMap.get values c.name = some v ∧
        validateValueType c v = false) →
      ∃ c, t.update cond values = (t, some (.typeMismatch c)))
    ∧ ((∀ c ∈ t.columns, ∀ v, SMap.get values c.name = some v →
        validateValueType c v = true) →
      (t.update cond values).2 = none ∨
        t.update cond values = (t, some .notFound)) := by
  constructor
  · intro hbad
    cases hvv : validateUpdateValues t.columns values with
    | none =>
        obtain ⟨c, hc, v, hv, hval⟩ := hbad
        have := (validateUpdateValues_none_iff t.columns values).mp hvv
          c hc v hv
        rw [this] at hval
        cases hval
    | some e =>
        obtain ⟨c, hc, he, -⟩ := validateUpdateValues_some t.columns
          values e hvv
        exact ⟨c.name, by simp [Table.update, hvv, he]⟩
  · intro hgood
    have hvv : validateUpdateValues t.columns values = none :=
      (validateUpdateValues_none_iff t.columns values).mpr hgood
    by_cases hany : t.rows.any (fun r => matchesCond cond r)
    · exact Or.inl (by simp [Table.update, hvv, hany])
    · exact Or.inr (by simp [Table.update, hvv, hany])

/-- C2 witness: a mismatching declared-column value makes Update fail
with TypeMismatch and return the table unchanged. -/
theorem C2_amended_witness :
    ∃ c, Table.update ⟨"users", [⟨"id", TypeInt⟩], [[("id", Value.num 1)]]⟩
        (some (condFromList [])) [("id", Value.str "oops")] =
      (⟨"users", [⟨"id", TypeInt⟩], [[("id", Value.num 1)]]⟩,
        some (.typeMismatch c)) :=
  (C2_amended _ _ _).1
    ⟨⟨"id", TypeInt⟩, by decide, Value.str "oops", by decide, by decide⟩

/-! ## Claim C3: Update result and NotFound -/

/-- C3 (counterexample): updating exactly one matching row does not
return count 1 — `Table.Update` returns only an error slot and the
server replies with bare success carrying no data at all, while a
Delete of one row replies with a "Deleted 1 records" data string. -/
theorem C3_counterexample :
    handleUpdate (some (.update "users" [("name", Value.str "Bob")]
        [("id", Value.num 1)]))
      (Database.mk [("users", ⟨"users",
        [⟨"id", TypeInt⟩, ⟨"name", TypeString⟩],
        [[("id", Value.num 1), ("name", Value.str "Alice")]]⟩)]) =
    (Database.mk [("users", ⟨"users",
        [⟨"id", TypeInt⟩, ⟨"name", TypeString⟩],
        [[("id", Value.num 1), ("name", Value.str "Bob")]]⟩)],
      ⟨true, none, ""⟩) := by
  decide

/-- C3 (amended): when validation succeeds, Update fails with NotFound
exactly when zero rows match, and otherwise succeeds — but it reports
no count: a successful Update's Response carries `data = none`. -/
theorem C3_amended (t : Table) (f : Row → Bool) (values : Row)
    (hval : validateUpdateValues t.columns values = none) :
    ((∀ r ∈ t.rows, f r = false) →
      t.update (some f) values = (t, some .notFound))
    ∧ ((∃ r ∈ t.rows, f r = true) → (t.update (some f) values).2 = none)
    ∧ (∀ payload db, (handleUpdate payload db).2.success = true →
        (handleUpdate payload db).2.data = none) := by
  refine ⟨?_, ?_, ?_⟩
  · intro hnone
    have hany : t.rows.any (fun r => matchesCond (some f) r) = false := by
      rw [List.any_eq_false]
      intro r hr
      simp [matchesCond, hnone r hr]
    simp [Table.update, hval, hany]
  · intro hsome
    obtain ⟨r, hr, hfr⟩ := hsome
    have hany : t.rows.any (fun r => matchesCond (some f) r) = true := by
      rw [List.any_eq_true]
      exact ⟨r, hr, by simp [matchesCond, hfr]⟩
    simp [Table.update, hval, hany]
  · intro payload db
    cases payload with
    | none => intro h; simp [handleUpdate] at h
    | some p =>
        cases p with
        | update n vals conds =>
            cases hget : db.getTable n with
            | none => intro h; simp [handleUpdate, hget] at h
            | some tb =>
                cases hu : tb.update (some (condFromList conds)) vals with
                | mk tb' e =>
                    cases e with
                    | none => intro _; simp [handleUpdate, hget, hu]
                    | some e' => intro h; simp [handleUpdate, hget, hu] at h
        | createTable a b => intro h; simp [handleUpdate] at h
        | insert a b => intro h; simp [handleUpdate] at h
        | select a b => intro h; simp [handleUpdate] at h
        | delete a b => intro h; simp [handleUpdate] at h
        | getTableInfo a => intro h; simp [handleUpdate] at h
        | str a => intro h; simp [handleUpdate] at h

/-- C3 witness: an Update whose condition matches no row fails with
NotFound and leaves the table unchanged. -/
theorem C3_amended_witness :
    Table.update ⟨"users", [⟨"id", TypeInt⟩], []⟩
      (some (condFromList [("id", Value.num 1)])) [("id", Value.num 2)] =
    (⟨"users", [⟨"id", TypeInt⟩], []⟩, some .notFound) :=
  (C3_amended ⟨"users", [⟨"id", TypeInt⟩], []⟩
    (condFromList [("id", Value.num 1)]) [("id", Value.num 2)]
    (by decide)).1 (by intro r hr; cases hr)

/-! ## Claim C4: Insert error conditions and success shape -/

/-- C4 (counterexample): Insert walks the declared columns in order, so
with columns `a, b`, a type-mismatching value for `a` and no value for
`b` at all, the call fails with TypeMismatch on `a` even though a
declared column (`b`) is absent — refuting "fails with MissingColumn
iff some declared column is absent from the input". -/
theorem C4_counterexample :
    Table.insert ⟨"t", [⟨"a", TypeInt⟩, ⟨"b", TypeInt⟩], []⟩
        [("a", Value.str "x")] =
      (⟨"t", [⟨"a", TypeInt⟩, ⟨"b", TypeInt⟩], []⟩,
        some (.typeMismatch "a")) ∧
    SMap.get [("a", Value.str "x")] "b" = (none : Option Value) := by
  constructor
  · decide
  · decide

/-- C4 (amended): Insert succeeds iff every declared column is present
with a kind-matching value (a non-integral number for an Integer column
mismatches); an error is always a MissingColumn naming an absent
declared column or a TypeMismatch naming a mismatched one — the one
reported is for the first offending column in declaration order; on
success exactly one row is appended, holding the provided value at
every declared column name and nothing at any other key. -/
theorem C4_amended (t : Table) (values : Row) :
    ((t.insert values).2 = none ↔
      ∀ c ∈ t.columns, ∃ v, SMap.get values c.name = some v ∧
        validateValueType c v = true)
    ∧ (∀ n, (t.insert values).2 = some (.missingColumn n) →
        ∃ c ∈ t.columns, c.name = n ∧ SMap.get values n = none)
    ∧ (∀ n, (t.insert values).2 = some (.typeMismatch n) →
        ∃ c ∈ t.columns, c.name = n ∧ ∃ v, SMap.get values n = some v ∧
          validateValueType c v = false)
    ∧ (∀ e, (t.insert values).2 = some e →
        (∃ n, e = .missingColumn n) ∨ (∃ n, e = .typeMismatch n))
    ∧ ((t.insert values).2 = none → ∃ row,
        t.insert values = ({ t with rows := t.rows ++ [row] }, none)
        ∧ (∀ c ∈ t.columns, SMap.get row c.name = SMap.get values c.name)
        ∧ (∀ k, (∀ c ∈ t.columns, c.name ≠ k) →
            SMap.get row k = (none : Option Value))) := by
  cases hloop : insertRowLoop t.columns values [] with
  | ok row =>
      have hins : t.insert values = ({ t with rows := t.rows ++ [row] },
          none) := by
        simp [Table.insert, hloop]
      refine ⟨?_, ?_, ?_, ?_, ?_⟩
      · rw [hins]
        simp only [true_iff]
        exact insertRowLoop_ok_validated t.columns values [] row hloop
      · intro n hn; rw [hins] at hn; simp at hn
      · intro n hn; rw [hins] at hn; simp at hn
      · intro e he; rw [hins] at he; simp at he
      · intro _
        refine ⟨row, hins,
          insertRowLoop_ok_get_mem t.columns values [] row hloop, ?_⟩
        intro k hk
        rw [insertRowLoop_ok_get_absent t.columns values [] row hloop k hk]
        rfl
  | error e =>
      have hins : t.insert values = (t, some e) := by
        simp [Table.insert, hloop]
      refine ⟨?_, ?_, ?_, ?_, ?_⟩
      · rw [hins]
        refine ⟨fun h => absurd h (by simp), fun hall => ?_⟩
        obtain ⟨row, hrow⟩ := insertRowLoop_ok_of_forall t.columns values
          [] hall
        rw [hrow] at hloop
        exact Except.noConfusion hloop
      · intro n hn
        rw [hins] at hn
        have : e = .missingColumn n := by simpa using hn
        subst this
        exact insertRowLoop_error_missing t.columns values [] n hloop
      · intro n hn
        rw [hins] at hn
        have : e = .typeMismatch n := by simpa using hn
        subst this
        exact insertRowLoop_error_mismatch t.columns values [] n hloop
      · intro e' he'
        rw [hins] at he'
        have : e = e' := by simpa using he'
        subst this
        exact insertRowLoop_error_kinds t.columns values [] e hloop
      · intro hno
        rw [hins] at hno
        simp at hno

/-- C4 witness: a well-typed Insert with one extra undeclared key
succeeds (the extra key is ignored in the appended row). -/
theorem C4_amended_witness :
    (Table.insert ⟨"users", [⟨"id", TypeInt⟩], []⟩
      [("id", Value.num 1), ("extra", Value.str "e")]).2 = none :=
  (C4_amended ⟨"users", [⟨"id", TypeInt⟩], []⟩
    [("id", Value.num 1), ("extra", Value.str "e")]).1.mpr (by decide)

/-! ## Claim C5: snapshot round-trip -/

/-- C5 (counterexample): a catalog holding a Go `int` value (accepted
by `validateValueType` for an Integer column through the library API)
does not survive the round-trip unchanged: `encoding/json` writes it as
a number and reads it back as a `float64`, which is a different
interface value (`int(1) != float64(1)` in Go). -/
theorem C5_counterexample :
    (Database.mk [("t", ⟨"t", [⟨"a", TypeInt⟩],
        [[("a", Value.int 1)]]⟩)]).loadFromDisk
      (some (Database.mk [("t", ⟨"t", [⟨"a", TypeInt⟩],
        [[("a", Value.int 1)]]⟩)]).saveToDisk) =
    (Database.mk [("t", ⟨"t", [⟨"a", TypeInt⟩],
        [[("a", Value.num 1)]]⟩)], none) ∧
    (Database.mk [("t", ⟨"t", [⟨"a", TypeInt⟩],
        [[("a", Value.num 1)]]⟩)]) ≠
    (Database.mk [("t", ⟨"t", [⟨"a", TypeInt⟩],
        [[("a", Value.int 1)]]⟩)]) := by
  constructor
  · decide
  · decide

/-- C5 (amended): for every Go-representable catalog whose values are
wire-ingested (no Go `int` values — every number a `float64`), loading
the saved snapshot back reproduces the catalog exactly — every table
with the same column list and the same rows in the same order — into
any prior catalog, wholesale.  A Go `int` value is the one exception:
it returns as the equal `float64`. -/
theorem C5_roundtrip (db db₀ : Database)
    (hnd : db.tables.nodupKeys)
    (hrows : ∀ p ∈ db.tables, ∀ r ∈ p.2.rows, SMap.nodupKeys r)
    (hname : ∀ p ∈ db.tables, p.2.name = p.1)
    (hint : dbIntFreeB db = true) :
    db₀.loadFromDisk (some db.saveToDisk) = (db, none) := by
  have hdec := decodeSnapshot_save db hnd hrows
  simp only [Database.loadFromDisk, hdec]
  have hRT : ∀ p ∈ db.tables, p.2.rows.map rowRT = p.2.rows := by
    intro p hp
    have hall := hint
    unfold dbIntFreeB at hall
    rw [List.all_eq_true] at hall
    have hp2 := hall p hp
    rw [List.all_eq_true] at hp2
    have : ∀ r ∈ p.2.rows, rowRT r = r := fun r hr =>
      rowRT_eq_self r (hp2 r hr)
    calc p.2.rows.map rowRT = p.2.rows.map id := List.map_congr_left this
      _ = p.2.rows := List.map_id p.2.rows
  have hdata : db.tables.map (fun p =>
      (p.1, (⟨p.2.name, p.2.columns, p.2.rows.map rowRT⟩ : TableData))) =
      db.tables.map (fun p =>
        (p.1, (⟨p.2.name, p.2.columns, p.2.rows⟩ : TableData))) :=
    List.map_congr_left (fun p hp => by rw [hRT p hp])
  rw [hdata]
  have hfold := rebuild_fold_eq (db.tables.map (fun p =>
      (p.1, (⟨p.2.name, p.2.columns, p.2.rows⟩ : TableData)))) []
    (by
      intro q hq
      obtain ⟨p, hp, hqp⟩ := List.mem_map.mp hq
      subst hqp
      exact hname p hp)
    (by
      have hk : SMap.keys (db.tables.map (fun p =>
          (p.1, (⟨p.2.name, p.2.columns, p.2.rows⟩ : TableData)))) =
          SMap.keys db.tables :=
        SMap.keys_map_snd db.tables
          (fun _ t => (⟨t.name, t.columns, t.rows⟩ : TableData))
      simpa [SMap.keys, hk] using hnd)
  unfold rebuildTables
  rw [hfold]
  have : (db.tables.map (fun p =>
        (p.1, (⟨p.2.name, p.2.columns, p.2.rows⟩ : TableData)))).map
      (fun q => (q.1, (⟨q.2.name, q.2.columns, q.2.rows⟩ : Table))) =
      db.tables := by
    rw [List.map_map]
    calc db.tables.map ((fun q : String × TableData =>
            (q.1, (⟨q.2.name, q.2.columns, q.2.rows⟩ : Table))) ∘
          (fun p : String × Table =>
            (p.1, (⟨p.2.name, p.2.columns, p.2.rows⟩ : TableData))))
        = db.tables.map (fun p => p) := List.map_congr_left
          (fun p _ => rfl)
      _ = db.tables := by simp
  rw [this]
  simp

/-- C5 witness: the round-trip evaluated on a one-table catalog with a
float-ingested integer value, loaded over an unrelated prior catalog. -/
theorem C5_roundtrip_witness :
    (Database.mk []).loadFromDisk
      (some (Database.mk [("t", ⟨"t", [⟨"a", TypeInt⟩],
        [[("a", Value.num 1)]]⟩)]).saveToDisk) =
    (Database.mk [("t", ⟨"t", [⟨"a", TypeInt⟩],
      [[("a", Value.num 1)]]⟩)], none) :=
  C5_roundtrip
    (Database.mk [("t", ⟨"t", [⟨"a", TypeInt⟩], [[("a", Value.num 1)]]⟩)])
    (Database.mk []) (by decide) (by decide) (by decide) (by decide)

/-! ## Claim C6: failed Load leaves the catalog untouched -/

/-- C6: a Load that fails — missing/unreadable file (IOError) or
malformed content (DecodeError) — returns the prior catalog unchanged;
only a successful Load replaces it, and then wholesale: the new catalog
is rebuilt from the decoded data alone, independent of the prior one. -/
theorem C6_load_failure (db : Database) :
    (db.loadFromDisk none = (db, some .ioError))
    ∧ (∀ j, decodeSnapshot j = none →
        db.loadFromDisk (some j) = (db, some .decodeError))
    ∧ (∀ j data, decodeSnapshot j = some data →
        db.loadFromDisk (some j) = (rebuildTables data, none)) := by
  refine ⟨rfl, ?_, ?_⟩
  · intro j hj
    simp [Database.loadFromDisk, hj]
  · intro j data hj
    simp [Database.loadFromDisk, hj]

/-- C6 witness: loading a malformed snapshot (a bare number) over a
non-empty catalog reports DecodeError and keeps the catalog. -/
theorem C6_load_failure_witness :
    (Database.mk [("t", ⟨"t", [⟨"a", TypeInt⟩], []⟩)]).loadFromDisk
      (some (Json.num 5)) =
    (Database.mk [("t", ⟨"t", [⟨"a", TypeInt⟩], []⟩)],
      some .decodeError) :=
  (C6_load_failure (Database.mk [("t", ⟨"t", [⟨"a", TypeInt⟩], []⟩)])).2.1
    (Json.num 5) rfl

/-! ## Claim C7: Delete semantics -/

/-- C7: Delete removes every matching row keeping the survivors in
their relative order (the survivor sequence is the order-preserving
filter of the stored rows, a sublist); with zero matches it fails with
NotFound and leaves the table (hence RowCount) unchanged; otherwise it
returns the removed count k and RowCount drops by exactly k. -/
theorem C7_delete (t : Table) (f : Row → Bool) :
    ((∀ r ∈ t.rows, f r = false) →
      t.delete (some f) = (t, 0, some .notFound))
    ∧ ((∃ r ∈ t.rows, f r = true) →
        (t.delete (some f)).1.rows = t.rows.filter (fun r => !(f r))
        ∧ (t.delete (some f)).1.rows.Sublist t.rows
        ∧ (t.delete (some f)).2.2 = none
        ∧ (t.delete (some f)).2.1 =
            t.rows.length - (t.rows.filter (fun r => !(f r))).length
        ∧ (t.delete (some f)).1.rowCount =
            t.rowCount - (t.delete (some f)).2.1) := by
  constructor
  · intro hnone
    have hkeep : t.rows.filter (fun r => !(f r)) = t.rows := by
      rw [List.filter_eq_self]
      intro r hr
      simp [hnone r hr]
    simp [Table.delete, hkeep]
  · intro hsome
    obtain ⟨r, hr, hfr⟩ := hsome
    have hlt : (t.rows.filter (fun r => !(f r))).length <
        t.rows.length := by
      apply List.length_filter_lt_length_iff_exists.mpr
      exact ⟨r, hr, by simp [hfr]⟩
    have hne : ¬(t.rows.length -
        (t.rows.filter (fun r => !(f r))).length = 0) := by
      omega
    have hdel : t.delete (some f) =
        ({ t with rows := t.rows.filter (fun r => !(f r)) },
         t.rows.length - (t.rows.filter (fun r => !(f r))).length,
         none) := by
      simp [Table.delete, hne]
    rw [hdel]
    refine ⟨rfl, List.filter_sublist t.rows, rfl, rfl, ?_⟩
    simp only [Table.rowCount]
    have hle : (t.rows.filter (fun r => !(f r))).length ≤
        t.rows.length := List.length_filter_le _ _
    omega

/-- C7 witness: deleting the one matching row of a two-row table. -/
theorem C7_delete_witness :
    (Table.delete ⟨"users", [⟨"id", TypeInt⟩],
        [[("id", Value.num 1)], [("id", Value.num 2)]]⟩
      (some (condFromList [("id", Value.num 1)]))).2.2 = none :=
  ((C7_delete ⟨"users", [⟨"id", TypeInt⟩],
      [[("id", Value.num 1)], [("id", Value.num 2)]]⟩
    (condFromList [("id", Value.num 1)])).2
    ⟨[("id", Value.num 1)], by decide, by decide⟩).2.2.1

/-! ## Claim C8: Select semantics -/

/-- C8: Select is total (it returns a row list, never an error) and
returns exactly the rows matching the condition, in the table's stored
order; the returned rows are per-row copies rebuilt entry by entry
(value-equal to the stored rows — the fresh maps mean a caller's
mutation cannot reach the store); a nil condition, and the closure of
an empty conditions map, match every row, and an empty result is just
the empty list. -/
theorem C8_select (t : Table) (cond : Cond)
    (h : ∀ r ∈ t.rows, SMap.nodupKeys r) :
    t.select cond = t.rows.filter (fun r => matchesCond cond r)
    ∧ (∀ r, matchesCond none r = true)
    ∧ (∀ r : Row, condFromList [] r = true) := by
  refine ⟨?_, fun r => rfl, fun r => rfl⟩
  unfold Table.select
  have hcopy : ∀ r ∈ t.rows.filter (fun r => matchesCond cond r),
      copyRow r = r := fun r hr =>
    copyRow_eq r (h r (List.mem_of_mem_filter hr))
  calc (t.rows.filter (fun r => matchesCond cond r)).map copyRow
      = (t.rows.filter (fun r => matchesCond cond r)).map (fun r => r) :=
        List.map_congr_left hcopy
    _ = t.rows.filter (fun r => matchesCond cond r) := by simp

/-- C8 witness: Select on a two-row table with a one-key condition
returns exactly the matching row. -/
theorem C8_select_witness :
    Table.select ⟨"users", [⟨"id", TypeInt⟩],
        [[("id", Value.num 1)], [("id", Value.num 2)]]⟩
      (some (condFromList [("id", Value.num 2)])) =
      [[("id", Value.num 2)]] := by
  rw [(C8_select ⟨"users", [⟨"id", TypeInt⟩],
      [[("id", Value.num 1)], [("id", Value.num 2)]]⟩
    (some (condFromList [("id", Value.num 2)])) (by decide)).1]
  decide

/-! ## Claim C9: the Load command's path payload -/

/-- C9: the claim fails on the code, and the handler itself shows the
intent.  `Command.UnmarshalJSON` has no `LoadFromDisk` case, so a
decoded Load command always carries a nil payload — whatever string the
wire payload held — and `handleLoadFromDisk`, whose nil branch targets
the default path and whose string branch would use the alternate path,
therefore always loads `database.json`.  Below, with distinct snapshots
at `database.json` (empty) and `alt.json` (one table), the decoded
command `{type:6, payload:"alt.json"}` loads the empty default; the
third conjunct shows the very same dispatcher would have honoured
`alt.json` had the decoder delivered the payload. -/
theorem C9_load_payload_dropped :
    (∀ rawPayload : Option Json,
      Command.unmarshal ⟨6, rawPayload⟩ = .ok ⟨6, none⟩)
    ∧ handleCommand ⟨6, none⟩ NewDatabase
        (fun p => if p = "alt.json"
          then some (Database.mk [("t", ⟨"t", [⟨"a", TypeInt⟩],
            []⟩)]).saveToDisk
          else if p = DEFAULT_DB_FILE then some Json.null else none) =
      (Database.mk [], ⟨true, none, ""⟩)
    ∧ handleCommand ⟨6, some (.str "alt.json")⟩ NewDatabase
        (fun p => if p = "alt.json"
          then some (Database.mk [("t", ⟨"t", [⟨"a", TypeInt⟩],
            []⟩)]).saveToDisk
          else if p = DEFAULT_DB_FILE then some Json.null else none) =
      (Database.mk [("t", ⟨"t", [⟨"a", TypeInt⟩], []⟩)],
        ⟨true, none, ""⟩) := by
  refine ⟨fun rawPayload => rfl, ?_, ?_⟩
  · decide
  · decide

/-! ## Claim C10: unknown command dispatch -/

/-- C10: a Command whose type tag is not one of the eight defined
kinds (0 through 7) is answered with a failure Response carrying no
data and the error message "unknown command", and the catalog is
returned untouched. -/
theorem C10_unknown_command (cmd : Command) (db : Database) (fs : FS)
    (h : cmd.ctype ∉ ([0, 1, 2, 3, 4, 5, 6, 7] : List Int)) :
    handleCommand cmd db fs = (db, ⟨false, none, "unknown command"⟩) := by
  have h0 : cmd.ctype ≠ 0 := fun hc => h (by simp [hc])
  have h1 : cmd.ctype ≠ 1 := fun hc => h (by simp [hc])
  have h2 : cmd.ctype ≠ 2 := fun hc => h (by simp [hc])
  have h3 : cmd.ctype ≠ 3 := fun hc => h (by simp [hc])
  have h4 : cmd.ctype ≠ 4 := fun hc => h (by simp [hc])
  have h5 : cmd.ctype ≠ 5 := fun hc => h (by simp [hc])
  have h6 : cmd.ctype ≠ 6 := fun hc => h (by simp [hc])
  have h7 : cmd.ctype ≠ 7 := fun hc => h (by simp [hc])
  simp [handleCommand, h0, h1, h2, h3, h4, h5, h6, h7]

/-- C10 witness: tag 99 gets the unknown-command failure Response and
an unchanged catalog. -/
theorem C10_unknown_command_witness :
    handleCommand ⟨99, none⟩
      (Database.mk [("t", ⟨"t", [⟨"a", TypeInt⟩], []⟩)])
      (fun _ => none) =
    (Database.mk [("t", ⟨"t", [⟨"a", TypeInt⟩], []⟩)],
      ⟨false, none, "unknown command"⟩) :=
  C10_unknown_command ⟨99, none⟩
    (Database.mk [("t", ⟨"t", [⟨"a", TypeInt⟩], []⟩)])
    (fun _ => none) (by decide)

end MemDb
